import Mathlib

/-!
Verification development for the Magic-UV copy/paste operators
(`uv_magic_uv/muv_cpuv_ops.py`).

The mesh data reachable from the operators is embedded shallowly:

* a `Loop` is one corner of a face, carrying its UV value (of an abstract
  payload type `α`, instantiated with `ℚ × ℚ` for concrete evaluation and
  with the real 2-vector type `Vec` for the similarity-alignment engine),
  its pin flag (`l[uv_layer].pin_uv`), the index of its adjoining edge
  (`l.edge`), and its UV-editor selection flag (`l[uv_layer].select`);
* a `Face` carries its selection flag and its ordered loop list;
* a `Mesh` carries the face table (`bm.faces`, a face's `index` being its
  position) and the per-edge seam table (`edge.seam`), which is shared
  between faces, exactly as in bmesh;
* `Props` is the session store `context.scene.muv_props.cpuv`.

The `execute` methods of the operator classes are translated into pure
functions of the same names; Python exceptions that abort an operator
before any write (IndexError / ZeroDivisionError in the image-editor
paste) are rendered as `none`.  The UV layer is taken as given (the
operators are modelled with `uv_map = ""` and an existing UV layer).
-/

structure Loop (α : Type) where
  uv : α
  pin : Bool
  edge : Nat
  uvSel : Bool
deriving DecidableEq

structure Face (α : Type) where
  select : Bool
  loops : List (Loop α)
deriving DecidableEq

structure Mesh (α : Type) where
  faces : List (Face α)
  seams : Nat → Bool

structure Props (α : Type) where
  src_uvs : List (List α)
  src_pin_uvs : List (List Bool)
  src_seams : List (List Bool)
deriving DecidableEq

inductive CpuvErr
  | noSelection
  | nothingCopied
  | countMismatch
  | faceSizeMismatch
deriving DecidableEq

inductive Strategy
  | NN
  | NM
deriving DecidableEq

/-- Enumeration of a face list with indices starting at `n`; models
`bm.faces` iteration where `face.index` is the table position. -/
def enumFacesFrom {α : Type} (n : Nat) : List (Face α) → List (Nat × Face α)
  | [] => []
  | f :: fs => (n, f) :: enumFacesFrom (n + 1) fs

/-- The selected faces together with their indices, in iteration order. -/
def selIdxFaces {α : Type} (m : Mesh α) : List (Nat × Face α) :=
  (enumFacesFrom 0 m.faces).filter (fun p => p.2.select)

def selFaces {α : Type} (m : Mesh α) : List (Face α) :=
  (selIdxFaces m).map (fun p => p.2)

/-- Per-face UV bundle: `[l[uv_layer].uv for l in face.loops]`. -/
def faceUVs {α : Type} (f : Face α) : List α :=
  f.loops.map (fun l => l.uv)

/-- Per-face pin bundle: `[l[uv_layer].pin_uv for l in face.loops]`. -/
def facePins {α : Type} (f : Face α) : List Bool :=
  f.loops.map (fun l => l.pin)

/-- Per-face seam bundle: `[l.edge.seam for l in face.loops]`. -/
def faceSeams {α : Type} (m : Mesh α) (f : Face α) : List Bool :=
  f.loops.map (fun l => m.seams l.edge)

def captureUVs {α : Type} (m : Mesh α) : List (List α) :=
  (selFaces m).map faceUVs

def capturePins {α : Type} (m : Mesh α) : List (List Bool) :=
  (selFaces m).map facePins

def captureSeams {α : Type} (m : Mesh α) : List (List Bool) :=
  (selFaces m).map (faceSeams m)

def captureTriple {α : Type} (m : Mesh α) :
    List (List α) × List (List Bool) × List (List Bool) :=
  (captureUVs m, capturePins m, captureSeams m)

/-- `MUV_CPUVCopyUV.execute`: clears the session store, captures the
selected faces' bundles into it, and fails when nothing was selected. -/
def MUV_CPUVCopyUV_execute {α : Type} (m : Mesh α) (_props : Props α) :
    Option CpuvErr × Props α :=
  let p : Props α := ⟨captureUVs m, capturePins m, captureSeams m⟩
  if p.src_uvs.isEmpty || p.src_pin_uvs.isEmpty then
    (some CpuvErr.noSelection, p)
  else
    (none, p)

/-- One step of the paste-time rotation: pop the last element and insert
it at the front (one iteration of the `rotate_copied_uv` loop). -/
def rotR1 {β : Type} (l : List β) : List β :=
  match l.getLast? with
  | none => []
  | some a => a :: l.dropLast

/-- `rotate_copied_uv` iterations: `k` successive right rotations. -/
def rotateRight {β : Type} : List β → Nat → List β
  | l, 0 => l
  | l, k + 1 => rotateRight (rotR1 l) k

/-- The per-bundle transform applied before writing: optional reversal
(`flip_copied_uv`) followed by the cyclic right rotation. -/
def transformList {β : Type} (flip : Bool) (rotate : Nat) (l : List β) : List β :=
  rotateRight (if flip then l.reverse else l) rotate

/-- Source UV bundle chosen for destination position `i`
(`src_uvs[i]` for N:N, `src_uvs[i % len(src_uvs)]` for N:M). -/
def srcUVFor {α : Type} (p : Props α) (st : Strategy) (i : Nat) : List α :=
  match st with
  | Strategy.NN => p.src_uvs.getD i []
  | Strategy.NM => p.src_uvs.getD (i % p.src_uvs.length) []

def srcPinFor {α : Type} (p : Props α) (st : Strategy) (i : Nat) : List Bool :=
  match st with
  | Strategy.NN => p.src_pin_uvs.getD i []
  | Strategy.NM => p.src_pin_uvs.getD (i % p.src_pin_uvs.length) []

def srcSeamFor {α : Type} (p : Props α) (st : Strategy) (i : Nat) : List Bool :=
  match st with
  | Strategy.NN => p.src_seams.getD i []
  | Strategy.NM => p.src_seams.getD (i % p.src_seams.length) []

/-- Point update of the shared per-edge seam table. -/
def updSeam (sm : Nat → Bool) (e : Nat) (b : Bool) : Nat → Bool :=
  fun e2 => if e2 = e then b else sm e2

/-- The write loop over one destination face:
`for l, suv, spuv, ss in zip(face.loops, suvs_fr, spuvs_fr, ss_fr)`,
assigning `l.uv`, `l.pin_uv` and, when `cs` (copy seams), `l.edge.seam`.
Like `zip`, it stops at the shortest list; the remaining loops are kept. -/
def writeLoops {α : Type} (cs : Bool) :
    List (Loop α) → List α → List Bool → List Bool → (Nat → Bool) →
    List (Loop α) × (Nat → Bool)
  | l :: ls, u :: us, p :: ps, s :: ss, sm =>
    let sm2 := if cs then updSeam sm l.edge s else sm
    let r := writeLoops cs ls us ps ss sm2
    ({ l with uv := u, pin := p } :: r.1, r.2)
  | ls, _, _, _, sm => (ls, sm)

/-- The loop list produced by `writeLoops` (it does not depend on the
incoming seam table, see `writeLoops_fst_eq_writeList`). -/
def writeList {α : Type} (cs : Bool) (ls : List (Loop α)) (us : List α)
    (ps ss : List Bool) : List (Loop α) :=
  (writeLoops cs ls us ps ss (fun _ => false)).1

/-- Write one destination face through `bm.faces[idx]`. -/
def writeFaceFull {α : Type} (m : Mesh α) (idx : Nat) (us : List α)
    (ps ss : List Bool) (cs : Bool) : Mesh α :=
  match m.faces[idx]? with
  | none => m
  | some f =>
    let r := writeLoops cs f.loops us ps ss m.seams
    { faces := m.faces.set idx { f with loops := r.1 }, seams := r.2 }

/-- The mesh update of one iteration of the paste loop at counter `i`
writing face `idx`. -/
def pasteStep {α : Type} (p : Props α) (st : Strategy) (flip : Bool)
    (rotate : Nat) (cs : Bool) (m : Mesh α) (i idx : Nat) : Mesh α :=
  writeFaceFull m idx
    (transformList flip rotate (srcUVFor p st i))
    (transformList flip rotate (srcPinFor p st i))
    (transformList flip rotate (srcSeamFor p st i))
    cs

/-- The paste loop of `MUV_CPUVPasteUV.execute`
(`for i, idx in enumerate(dest_face_indices)`): compare bundle sizes,
abort with `FaceSizeMismatch` on the first difference, otherwise
transform and write face `idx`. -/
def pasteFaces {α : Type} (p : Props α) (st : Strategy) (flip : Bool)
    (rotate : Nat) (cs : Bool) (dest_uvs : List (List α)) :
    List Nat → Nat → Mesh α → Option CpuvErr × Mesh α
  | [], _, m => (none, m)
  | idx :: rest, i, m =>
    if (srcUVFor p st i).length ≠ (dest_uvs.getD i []).length then
      (some CpuvErr.faceSizeMismatch, m)
    else
      pasteFaces p st flip rotate cs dest_uvs rest (i + 1)
        (pasteStep p st flip rotate cs m i idx)

/-- The writes of the paste loop alone, without the size checks; used to
state which writes a (partial) paste has committed. -/
def pasteWrites {α : Type} (p : Props α) (st : Strategy) (flip : Bool)
    (rotate : Nat) (cs : Bool) : List Nat → Nat → Mesh α → Mesh α
  | [], _, m => m
  | idx :: rest, i, m =>
    pasteWrites p st flip rotate cs rest (i + 1)
      (pasteStep p st flip rotate cs m i idx)

/-- `MUV_CPUVPasteUV.execute`. -/
def MUV_CPUVPasteUV_execute {α : Type} (p : Props α) (m : Mesh α)
    (st : Strategy) (flip : Bool) (rotate : Nat) (cs : Bool) :
    Option CpuvErr × Mesh α :=
  if p.src_uvs.isEmpty || p.src_pin_uvs.isEmpty then
    (some CpuvErr.nothingCopied, m)
  else
    let dest_uvs := captureUVs m
    let dest_pin_uvs := capturePins m
    let idxs := (selIdxFaces m).map (fun q => q.1)
    if dest_uvs.isEmpty || dest_pin_uvs.isEmpty then
      (some CpuvErr.noSelection, m)
    else if st = Strategy.NN ∧ p.src_uvs.length ≠ dest_uvs.length then
      (some CpuvErr.countMismatch, m)
    else
      pasteFaces p st flip rotate cs dest_uvs idxs 0 m

/-- Selection filter of the image-editor operators: face selected and
every loop selected in the UV layer. -/
def ieSelFilter {α : Type} (f : Face α) : Bool :=
  f.select && f.loops.all (fun l => l.uvSel)

/-- `MUV_CPUVIECopyUV.execute`: appends the qualifying faces' UV bundles
to `props.src_uvs` (the store is NOT cleared first). -/
def MUV_CPUVIECopyUV_execute {α : Type} (m : Mesh α) (p : Props α) : Props α :=
  { p with src_uvs := p.src_uvs ++ (m.faces.filter ieSelFilter).map faceUVs }

/-- Destination data of the image-editor paste: indices and faces passing
the selection filter, in iteration order. -/
def ieDestData {α : Type} (m : Mesh α) : List (Nat × Face α) :=
  (enumFacesFrom 0 m.faces).filter (fun q => ieSelFilter q.2)

/-- Write only the UV values onto a face's loops, `zip`-style. -/
def zipWriteUV {α : Type} : List (Loop α) → List α → List (Loop α)
  | l :: ls, u :: us => { l with uv := u } :: zipWriteUV ls us
  | ls, _ => ls

def ieWriteFace {α : Type} (m : Mesh α) (idx : Nat) (uvs : List α) : Mesh α :=
  match m.faces[idx]? with
  | none => m
  | some f => { m with faces := m.faces.set idx { f with loops := zipWriteUV f.loops uvs } }

/-- The second loop of `MUV_CPUVIEPasteUV.execute`:
`for suvs, fidx in zip(props.src_uvs, dest_face_indices)`, writing
`g suv` for each corner. -/
def ieWriteLoop {α : Type} (g : α → α) :
    List (List α) → List Nat → Mesh α → Mesh α
  | s :: srest, idx :: irest, m => ieWriteLoop g srest irest (ieWriteFace m idx (s.map g))
  | _, _, m => m

/-- The 2D UV vector of the alignment engine (`mathutils.Vector`). -/
@[ext]
structure Vec where
  x : ℝ
  y : ℝ

noncomputable instance : Sub Vec := ⟨fun a b => ⟨a.x - b.x, a.y - b.y⟩⟩

/-- `math.atan2`. -/
noncomputable def atan2 (y x : ℝ) : ℝ := Complex.arg ⟨x, y⟩

/-- `Vector.length`. -/
noncomputable def Vec.length (v : Vec) : ℝ := Real.sqrt (v.x * v.x + v.y * v.y)

/-- The rotation angle computed by `MUV_CPUVIEPasteUV.execute` from the
source and destination reference edges. -/
noncomputable def deriveRadian (sd dd : Vec) : ℝ :=
  let src_rad := atan2 sd.y sd.x
  let dest_rad := atan2 dd.y dd.x
  if src_rad < dest_rad then dest_rad - src_rad
  else if dest_rad < src_rad then Real.pi * 2 - (src_rad - dest_rad)
  else 0

/-- The uniform scale `dest_diff.length / src_diff.length`. -/
noncomputable def deriveRatio (sd dd : Vec) : ℝ := dd.length / sd.length

/-- The per-corner computation of the image-editor paste: re-base on
`src_base`, rotate through the angle sum, scale, then translate to
`dest_base`. -/
noncomputable def alignCorner (radian ratio : ℝ) (src_base dest_base : Vec)
    (c : Vec) : Vec :=
  let base := c - src_base
  let radian_ref := atan2 base.y base.x
  let radian_fin := radian + radian_ref
  let len := base.length
  let turn : Vec := ⟨len * Real.cos radian_fin, len * Real.sin radian_fin⟩
  ⟨turn.x * ratio + dest_base.x, turn.y * ratio + dest_base.y⟩

/-- Direct rotate-by-`radian`, scale-by-`ratio` similarity map around
`S`, translated to `D`; the spec's description of the written corner. -/
noncomputable def alignCornerSpec (radian ratio : ℝ) (S D : Vec) (c : Vec) : Vec :=
  ⟨ratio * (Real.cos radian * (c.x - S.x) - Real.sin radian * (c.y - S.y)) + D.x,
   ratio * (Real.sin radian * (c.x - S.x) + Real.cos radian * (c.y - S.y)) + D.y⟩

/-- Common shell of the image-editor paste: filter the destination faces,
derive `(radian, ratio)` and the two base corners from the first matched
pair, then write every pair with the given per-corner map.  `none` models
the uncaught IndexError (a reference bundle with fewer than two corners)
or ZeroDivisionError (degenerate source edge) aborting the operator
before any write. -/
noncomputable def iePasteWith
    (corner : ℝ → ℝ → Vec → Vec → Vec → Vec)
    (p : Props Vec) (m : Mesh Vec) : Option (Mesh Vec) :=
  let dests := ieDestData m
  match p.src_uvs, dests with
  | [], _ => some m
  | _ :: _, [] => some m
  | s0 :: _, d0 :: _ =>
    match s0[0]?, s0[1]?, (faceUVs d0.2)[0]?, (faceUVs d0.2)[1]? with
    | some sb, some s1, some db, some d1 =>
      let src_diff := s1 - sb
      let dest_diff := d1 - db
      if src_diff.length = 0 then none
      else
        some (ieWriteLoop
          (corner (deriveRadian src_diff dest_diff) (deriveRatio src_diff dest_diff) sb db)
          p.src_uvs (dests.map (fun q => q.1)) m)
    | _, _, _, _ => none

/-- `MUV_CPUVIEPasteUV.execute`. -/
noncomputable def MUV_CPUVIEPasteUV_execute : Props Vec → Mesh Vec → Option (Mesh Vec) :=
  iePasteWith alignCorner

/-- Modelled from the spec (claim C1, amended): the same paste where each
written corner is the direct rotate-scale of its offset from the FIRST
captured face's first corner, translated to the FIRST destination face's
first corner. -/
noncomputable def specAlignPasteGlobal : Props Vec → Mesh Vec → Option (Mesh Vec) :=
  iePasteWith alignCornerSpec

/-- Modelled from the spec (claim C1 as stated): per matched pair `k`,
each corner `c` of source bundle `k` is written as
rotate-scale `(c - src_k[0]) + dest_k[0]`, with the bases taken from that
pair rather than from the first pair. -/
noncomputable def perFaceWrite (r s : ℝ) :
    List (List Vec) → List (Nat × Face Vec) → Mesh Vec → Mesh Vec
  | suvs :: srest, d :: drest, m =>
    perFaceWrite r s srest drest
      (ieWriteFace m d.1
        (suvs.map (alignCornerSpec r s (suvs.getD 0 ⟨0, 0⟩) ((faceUVs d.2).getD 0 ⟨0, 0⟩))))
  | _, _, m => m

/-- Modelled from the spec (claim C1 as stated): the similarity-alignment
paste as the claim describes it, each face re-based on its own first
corner and translated to its own paired destination face's first corner. -/
noncomputable def specAlignPastePerFace (p : Props Vec) (m : Mesh Vec) :
    Option (Mesh Vec) :=
  let dests := ieDestData m
  match p.src_uvs, dests with
  | [], _ => some m
  | _ :: _, [] => some m
  | s0 :: _, d0 :: _ =>
    match s0[0]?, s0[1]?, (faceUVs d0.2)[0]?, (faceUVs d0.2)[1]? with
    | some sb, some s1, some db, some d1 =>
      let src_diff := s1 - sb
      let dest_diff := d1 - db
      if src_diff.length = 0 then none
      else
        some (perFaceWrite (deriveRadian src_diff dest_diff)
          (deriveRatio src_diff dest_diff) p.src_uvs dests m)
    | _, _, _, _ => none

/-- UV value at face `fi`, loop `li` of a mesh (with defaults). -/
def uvAt {α : Type} (m : Mesh α) (fi li : Nat) (d : α) : α :=
  (((m.faces.getD fi ⟨false, []⟩).loops).getD li ⟨d, false, 0, false⟩).uv

/-- Bundle-shape invariant of a session store produced by a capture:
pin and seam lists match the UV list in count and per-bundle length. -/
def PropsAligned {α : Type} (p : Props α) : Prop :=
  p.src_pin_uvs.length = p.src_uvs.length ∧
  p.src_seams.length = p.src_uvs.length ∧
  (∀ k, (p.src_pin_uvs.getD k []).length = (p.src_uvs.getD k []).length) ∧
  (∀ k, (p.src_seams.getD k []).length = (p.src_uvs.getD k []).length)

/-- A paste plan: per destination face, its index and the three
transformed bundles to write. -/
def applyPlan {α : Type} (cs : Bool) (m : Mesh α) :
    List (Nat × List α × List Bool × List Bool) → Mesh α
  | [] => m
  | (idx, us, ps, ss) :: rest => applyPlan cs (writeFaceFull m idx us ps ss cs) rest

/-- The plan the paste loop executes on a given destination index list
starting at counter `i`. -/
def planOf {α : Type} (p : Props α) (st : Strategy) (flip : Bool) (rotate : Nat) :
    List Nat → Nat → List (Nat × List α × List Bool × List Bool)
  | [], _ => []
  | idx :: rest, i =>
    (idx, transformList flip rotate (srcUVFor p st i),
      transformList flip rotate (srcPinFor p st i),
      transformList flip rotate (srcSeamFor p st i)) :: planOf p st flip rotate rest (i + 1)

/-- All edge indices adjoining the loops of the given faces, in order. -/
def facesEdges {α : Type} (F : List (Face α)) : List Nat :=
  (F.map (fun f => f.loops.map (fun l => l.edge))).flatten

/-- A plan entry is coherent with a face of mesh `m`: the entry's index
resolves to that face and the three bundle lengths match its loop count. -/
def PlanFaceOK {α : Type} (m : Mesh α)
    (entry : Nat × List α × List Bool × List Bool) (f : Face α) : Prop :=
  m.faces[entry.1]? = some f ∧
  entry.2.1.length = f.loops.length ∧
  entry.2.2.1.length = f.loops.length ∧
  entry.2.2.2.length = f.loops.length

/-- The face produced by the Strict round-trip write of bundle `k` of a
store `B` onto face `f` (flip off, rotation 0, seams copied). -/
def roundWrite {α : Type} (B : Props α) (k : Nat) (f : Face α) : Face α :=
  { f with loops := writeList true f.loops (B.src_uvs.getD k []) (B.src_pin_uvs.getD k []) (B.src_seams.getD k []) }

/-- Concrete captured source list for the alignment-paste example: one
two-corner reference bundle and one single-corner bundle. -/
noncomputable def cexProps : Props Vec := ⟨[[⟨0, 0⟩, ⟨1, 0⟩], [⟨10, 0⟩]], [], []⟩

/-- First destination face of the alignment-paste example. -/
noncomputable def cexFace0 : Face Vec :=
  ⟨true, [⟨⟨5, 5⟩, false, 0, true⟩, ⟨⟨6, 5⟩, false, 1, true⟩]⟩

/-- Second destination face of the alignment-paste example. -/
noncomputable def cexFace1 : Face Vec := ⟨true, [⟨⟨7, 7⟩, false, 2, true⟩]⟩

/-- Destination mesh of the alignment-paste example. -/
noncomputable def cexMesh : Mesh Vec := ⟨[cexFace0, cexFace1], fun _ => false⟩

/-! ### List rotation lemmas -/

theorem rotR1_rotate_one {β : Type} (l : List β) : rotR1 (l.rotate 1) = l := by
  cases l with
  | nil => simp [rotR1]
  | cons a t =>
    have h1 : (a :: t).rotate 1 = t ++ [a] := by
      simpa using List.rotate_cons_succ t a 0
    rw [h1, rotR1]
    simp

theorem rotateRight_eq_iter {β : Type} (k : Nat) (l : List β) :
    rotateRight l k = rotR1^[k] l := by
  induction k generalizing l with
  | zero => rfl
  | succ k ih =>
    rw [rotateRight, ih, ← Function.iterate_succ_apply]

theorem iter_rotR1_rotate {β : Type} (k : Nat) (l : List β) :
    rotR1^[k] (l.rotate k) = l := by
  induction k generalizing l with
  | zero => simp
  | succ k ih =>
    have h1 : l.rotate (k + 1) = (l.rotate 1).rotate k := by
      rw [List.rotate_rotate, Nat.add_comm]
    rw [Function.iterate_succ_apply']
    rw [h1, ih (l.rotate 1), rotR1_rotate_one]

theorem rotateRight_rotateRight {β : Type} (l : List β) (a b : Nat) :
    rotateRight (rotateRight l a) b = rotR1^[b + a] l := by
  rw [rotateRight_eq_iter, rotateRight_eq_iter, Function.iterate_add_apply]

theorem rotate_cancel {β : Type} (l : List β) (k : Nat) (hk : k ≤ l.length) :
    rotateRight (rotateRight l k) ((l.length - k) % l.length) = l := by
  rw [rotateRight_rotateRight]
  have hrot : l.rotate ((l.length - k) % l.length + k) = l := by
    by_cases hk0 : k = 0
    · subst hk0
      simp [Nat.mod_self]
    · rcases Nat.lt_or_ge k l.length with hlt | hge
      · have h1 : l.length - k < l.length := by omega
        rw [Nat.mod_eq_of_lt h1, Nat.sub_add_cancel hk, List.rotate_length]
      · have hk2 : k = l.length := Nat.le_antisymm hk hge
        subst hk2
        simp
  calc rotR1^[(l.length - k) % l.length + k] l
      = rotR1^[(l.length - k) % l.length + k] (l.rotate ((l.length - k) % l.length + k)) := by
        rw [hrot]
    _ = l := iter_rotR1_rotate _ l

/-- C8: for every bundle of corner count `n` and every `k ≤ n`, the
paste-time cyclic rotation by `k` followed by the rotation by
`(n - k) % n` is the identity on the corner ordering of the UV, pin and
seam sequences. -/
theorem claim_C8 {α : Type} (uvs : List α) (pins seams : List Bool) (n k : Nat)
    (hu : uvs.length = n) (hp : pins.length = n) (hs : seams.length = n)
    (hk : k ≤ n) :
    rotateRight (rotateRight uvs k) ((n - k) % n) = uvs ∧
    rotateRight (rotateRight pins k) ((n - k) % n) = pins ∧
    rotateRight (rotateRight seams k) ((n - k) % n) = seams := by
  refine ⟨?_, ?_, ?_⟩
  · have := rotate_cancel uvs k (by omega)
    rwa [hu] at this
  · have := rotate_cancel pins k (by omega)
    rwa [hp] at this
  · have := rotate_cancel seams k (by omega)
    rwa [hs] at this

/-- Witness for C8 at a concrete triangle bundle with `k = 2`. -/
theorem claim_C8_witness :
    rotateRight (rotateRight [(1 : ℚ), 2, 3] 2) ((3 - 2) % 3) = [(1 : ℚ), 2, 3] ∧
    rotateRight (rotateRight [true, false, true] 2) ((3 - 2) % 3) = [true, false, true] ∧
    rotateRight (rotateRight [false, true, true] 2) ((3 - 2) % 3) = [false, true, true] :=
  claim_C8 [(1 : ℚ), 2, 3] [true, false, true] [false, true, true] 3 2
    (by decide) (by decide) (by decide) (by decide)

/-! ### Session-store behaviour of the copy operators (C2, C9) -/

/-- C2 counterexample: the image-editor copy run with a non-empty session
store leaves the previously stored bundle in front of the newly captured
one, so the store does not contain exactly the bundles read during the
invocation. -/
theorem claim_C2_counterexample :
    (MUV_CPUVIECopyUV_execute
        (⟨[⟨true, [⟨((2 : ℚ), (2 : ℚ)), false, 0, true⟩]⟩], fun _ => false⟩ : Mesh (ℚ × ℚ))
        ⟨[[((1 : ℚ), (1 : ℚ))]], [], []⟩).src_uvs ≠
      ((⟨[⟨true, [⟨((2 : ℚ), (2 : ℚ)), false, 0, true⟩]⟩], fun _ => false⟩ : Mesh (ℚ × ℚ)).faces.filter
          ieSelFilter).map faceUVs := by
  decide

/-- C2 amended: the face-set copy replaces the session store wholesale
(the result is the capture of the current selection, independent of the
prior store), while the image-editor copy appends the captured bundles
after the prior contents of `src_uvs`, clearing nothing. -/
theorem claim_C2_amended {α : Type} :
    (∀ (m : Mesh α) (p : Props α),
      (MUV_CPUVCopyUV_execute m p).2 = ⟨captureUVs m, capturePins m, captureSeams m⟩) ∧
    (∀ (m : Mesh α) (p : Props α),
      (MUV_CPUVIECopyUV_execute m p).src_uvs.take p.src_uvs.length = p.src_uvs ∧
      (MUV_CPUVIECopyUV_execute m p).src_uvs.drop p.src_uvs.length =
        (m.faces.filter ieSelFilter).map faceUVs) := by
  constructor
  · intro m p
    rw [MUV_CPUVCopyUV_execute]
    split
    · rfl
    · rfl
  · intro m p
    constructor
    · rw [MUV_CPUVIECopyUV_execute]
      exact List.take_left p.src_uvs _
    · rw [MUV_CPUVIECopyUV_execute]
      exact List.drop_left p.src_uvs _

/-- C9: a face-set copy with no face selected clears the session store
before failing with `NoSelection`, so the previously captured bundles are
lost and every subsequent paste fails with `NothingCopied`. -/
theorem claim_C9 {α : Type} (m : Mesh α) (p : Props α) (h : selFaces m = []) :
    MUV_CPUVCopyUV_execute m p = (some CpuvErr.noSelection, ⟨[], [], []⟩) ∧
    ∀ (m2 : Mesh α) (st : Strategy) (flip : Bool) (rotate : Nat) (cs : Bool),
      MUV_CPUVPasteUV_execute (MUV_CPUVCopyUV_execute m p).2 m2 st flip rotate cs =
        (some CpuvErr.nothingCopied, m2) := by
  have hcap : captureUVs m = [] := by rw [captureUVs, h]; rfl
  have hpin : capturePins m = [] := by rw [capturePins, h]; rfl
  have hseam : captureSeams m = [] := by rw [captureSeams, h]; rfl
  have hcopy : MUV_CPUVCopyUV_execute m p = (some CpuvErr.noSelection, ⟨[], [], []⟩) := by
    rw [MUV_CPUVCopyUV_execute]
    simp [hcap, hpin, hseam]
  refine ⟨hcopy, ?_⟩
  intro m2 st flip rotate cs
  rw [hcopy, MUV_CPUVPasteUV_execute]
  simp

/-- Witness for C9: a concrete store holding one bundle is wiped by a
copy on a mesh whose single face is unselected, and the following paste
is refused. -/
theorem claim_C9_witness :
    MUV_CPUVCopyUV_execute
        (⟨[⟨false, [⟨((3 : ℚ), (4 : ℚ)), true, 0, false⟩]⟩], fun _ => false⟩ : Mesh (ℚ × ℚ))
        ⟨[[((1 : ℚ), (1 : ℚ))]], [[true]], [[false]]⟩ =
      (some CpuvErr.noSelection, ⟨[], [], []⟩) ∧
    ∀ (m2 : Mesh (ℚ × ℚ)) (st : Strategy) (flip : Bool) (rotate : Nat) (cs : Bool),
      MUV_CPUVPasteUV_execute
          (MUV_CPUVCopyUV_execute
            (⟨[⟨false, [⟨((3 : ℚ), (4 : ℚ)), true, 0, false⟩]⟩], fun _ => false⟩ : Mesh (ℚ × ℚ))
            ⟨[[((1 : ℚ), (1 : ℚ))]], [[true]], [[false]]⟩).2 m2 st flip rotate cs =
        (some CpuvErr.nothingCopied, m2) :=
  claim_C9 _ _ (by decide)

/-! ### Error preconditions of the face-set engine (C4) -/

/-- C4 counterexample: a Strict paste of three captured bundles with zero
selected destination faces has differing counts (3 and 0) but fails with
`NoSelection`, not `CountMismatch`. -/
theorem claim_C4_counterexample :
    (MUV_CPUVPasteUV_execute
        (⟨[[true], [true], [true]], [[true], [true], [true]], [[true], [true], [true]]⟩ :
          Props Bool)
        ⟨[], fun _ => false⟩ Strategy.NN false 0 true).1 ≠
      some CpuvErr.countMismatch := by
  decide

/-- C4 amended: capture with an empty selected-face list fails with
`NoSelection` leaving an empty store; paste with an empty CaptureSet
fails with `NothingCopied` leaving the mesh untouched; Strict paste with
at least one destination face selected and differing counts fails with
`CountMismatch` leaving the mesh untouched. -/
theorem claim_C4_amended {α : Type} :
    (∀ (m : Mesh α) (p : Props α), selFaces m = [] →
      MUV_CPUVCopyUV_execute m p = (some CpuvErr.noSelection, ⟨[], [], []⟩)) ∧
    (∀ (p : Props α) (m : Mesh α) (st : Strategy) (flip : Bool) (rotate : Nat) (cs : Bool),
      p.src_uvs = [] →
      MUV_CPUVPasteUV_execute p m st flip rotate cs = (some CpuvErr.nothingCopied, m)) ∧
    (∀ (p : Props α) (m : Mesh α) (flip : Bool) (rotate : Nat) (cs : Bool),
      p.src_uvs ≠ [] → p.src_pin_uvs ≠ [] → selFaces m ≠ [] →
      p.src_uvs.length ≠ (captureUVs m).length →
      MUV_CPUVPasteUV_execute p m Strategy.NN flip rotate cs =
        (some CpuvErr.countMismatch, m)) := by
  refine ⟨?_, ?_, ?_⟩
  · intro m p h
    have hcap : captureUVs m = [] := by rw [captureUVs, h]; rfl
    have hpin : capturePins m = [] := by rw [capturePins, h]; rfl
    have hseam : captureSeams m = [] := by rw [captureSeams, h]; rfl
    rw [MUV_CPUVCopyUV_execute]
    simp [hcap, hpin, hseam]
  · intro p m st flip rotate cs h
    rw [MUV_CPUVPasteUV_execute]
    simp [h]
  · intro p m flip rotate cs h1 h2 h3 h4
    have hcap : captureUVs m ≠ [] := by
      rw [captureUVs]
      simpa using h3
    have hpin : capturePins m ≠ [] := by
      rw [capturePins]
      simpa using h3
    simp only [MUV_CPUVPasteUV_execute]
    rw [if_neg (by simp [List.isEmpty_iff, h1, h2]),
      if_neg (by simp [List.isEmpty_iff, hcap, hpin]),
      if_pos ⟨trivial, h4⟩]

/-- Witness for C4 at concrete inputs, including the spec's 3-source /
4-destination Strict mismatch. -/
theorem claim_C4_witness :
    MUV_CPUVCopyUV_execute (⟨[], fun _ => false⟩ : Mesh Bool) ⟨[[true]], [[true]], [[true]]⟩ =
      (some CpuvErr.noSelection, ⟨[], [], []⟩) ∧
    MUV_CPUVPasteUV_execute (⟨[], [], []⟩ : Props Bool)
        ⟨[⟨true, [⟨true, false, 0, false⟩]⟩], fun _ => false⟩ Strategy.NM true 3 false =
      (some CpuvErr.nothingCopied, ⟨[⟨true, [⟨true, false, 0, false⟩]⟩], fun _ => false⟩) ∧
    MUV_CPUVPasteUV_execute
        (⟨[[true], [true], [true]], [[true], [true], [true]], [[true], [true], [true]]⟩ :
          Props Bool)
        ⟨[⟨true, [⟨true, false, 0, false⟩]⟩, ⟨true, [⟨true, false, 1, false⟩]⟩,
          ⟨true, [⟨true, false, 2, false⟩]⟩, ⟨true, [⟨true, false, 3, false⟩]⟩],
          fun _ => false⟩ Strategy.NN false 0 true =
      (some CpuvErr.countMismatch,
        ⟨[⟨true, [⟨true, false, 0, false⟩]⟩, ⟨true, [⟨true, false, 1, false⟩]⟩,
          ⟨true, [⟨true, false, 2, false⟩]⟩, ⟨true, [⟨true, false, 3, false⟩]⟩],
          fun _ => false⟩) :=
  ⟨claim_C4_amended.1 _ _ (by decide),
   claim_C4_amended.2.1 _ _ _ _ _ _ rfl,
   claim_C4_amended.2.2 _ _ _ _ _ (by decide) (by decide) (by decide) (by decide)⟩

/-! ### Silent no-op behaviour of the image-editor paste (C10) -/

/-- C10: the image-editor paste run with an empty captured source list,
or with no destination face passing the selection filter, writes nothing
and still finishes successfully. -/
theorem claim_C10 (p : Props Vec) (m : Mesh Vec)
    (h : p.src_uvs = [] ∨ ieDestData m = []) :
    MUV_CPUVIEPasteUV_execute p m = some m := by
  rw [MUV_CPUVIEPasteUV_execute]
  rcases h with h | h
  · simp [iePasteWith, h]
  · cases hs : p.src_uvs with
    | nil => simp [iePasteWith, h, hs]
    | cons a t => simp [iePasteWith, h, hs]

/-- Witness for C10 on a concrete empty capture list. -/
theorem claim_C10_witness :
    MUV_CPUVIEPasteUV_execute ⟨[], [], []⟩ (⟨[], fun _ => false⟩ : Mesh Vec) =
      some (⟨[], fun _ => false⟩ : Mesh Vec) :=
  claim_C10 _ _ (Or.inl rfl)

/-! ### Write-loop lemmas -/

theorem writeLoops_fst_length {α : Type} (cs : Bool) (ls : List (Loop α))
    (us : List α) (ps ss : List Bool) (sm : Nat → Bool) :
    ((writeLoops cs ls us ps ss sm).1).length = ls.length := by
  induction ls generalizing us ps ss sm with
  | nil => cases us <;> cases ps <;> cases ss <;> rfl
  | cons l lt ih =>
    cases us with
    | nil => rfl
    | cons u ut =>
      cases ps with
      | nil => rfl
      | cons q pt =>
        cases ss with
        | nil => rfl
        | cons s st2 => simp [writeLoops, ih]

theorem writeLoops_fst_edges {α : Type} (cs : Bool) (ls : List (Loop α))
    (us : List α) (ps ss : List Bool) (sm : Nat → Bool) :
    ((writeLoops cs ls us ps ss sm).1).map (fun l => l.edge) = ls.map (fun l => l.edge) := by
  induction ls generalizing us ps ss sm with
  | nil => cases us <;> cases ps <;> cases ss <;> rfl
  | cons l lt ih =>
    cases us with
    | nil => rfl
    | cons u ut =>
      cases ps with
      | nil => rfl
      | cons q pt =>
        cases ss with
        | nil => rfl
        | cons s st2 => simp [writeLoops, ih]

theorem writeLoops_fst_eq_writeList {α : Type} (cs : Bool) (ls : List (Loop α))
    (us : List α) (ps ss : List Bool) (sm : Nat → Bool) :
    (writeLoops cs ls us ps ss sm).1 = writeList cs ls us ps ss := by
  rw [writeList]
  induction ls generalizing us ps ss sm with
  | nil => cases us <;> cases ps <;> cases ss <;> rfl
  | cons l lt ih =>
    cases us with
    | nil => rfl
    | cons u ut =>
      cases ps with
      | nil => rfl
      | cons q pt =>
        cases ss with
        | nil => rfl
        | cons s st2 => simp [writeLoops, ih]

theorem writeList_map_uv {α : Type} (cs : Bool) (ls : List (Loop α))
    (us : List α) (ps ss : List Bool) (hu : us.length = ls.length)
    (hp : ps.length = ls.length) (hs : ss.length = ls.length) :
    (writeList cs ls us ps ss).map (fun l => l.uv) = us := by
  rw [writeList]
  suffices h : ∀ sm : Nat → Bool,
      ((writeLoops cs ls us ps ss sm).1).map (fun l => l.uv) = us from h _
  induction ls generalizing us ps ss with
  | nil =>
    intro sm
    have : us = [] := List.eq_nil_of_length_eq_zero hu
    subst this
    cases ps <;> cases ss <;> rfl
  | cons l lt ih =>
    intro sm
    cases us with
    | nil => simp at hu
    | cons u ut =>
      cases ps with
      | nil => simp at hp
      | cons q pt =>
        cases ss with
        | nil => simp at hs
        | cons s st2 =>
          simp only [List.length_cons, Nat.succ_inj] at hu hp hs
          simp [writeLoops, ih ut pt st2 hu hp hs]

theorem writeList_map_pin {α : Type} (cs : Bool) (ls : List (Loop α))
    (us : List α) (ps ss : List Bool) (hu : us.length = ls.length)
    (hp : ps.length = ls.length) (hs : ss.length = ls.length) :
    (writeList cs ls us ps ss).map (fun l => l.pin) = ps := by
  rw [writeList]
  suffices h : ∀ sm : Nat → Bool,
      ((writeLoops cs ls us ps ss sm).1).map (fun l => l.pin) = ps from h _
  induction ls generalizing us ps ss with
  | nil =>
    intro sm
    have : ps = [] := List.eq_nil_of_length_eq_zero hp
    subst this
    cases us <;> cases ss <;> rfl
  | cons l lt ih =>
    intro sm
    cases us with
    | nil => simp at hu
    | cons u ut =>
      cases ps with
      | nil => simp at hp
      | cons q pt =>
        cases ss with
        | nil => simp at hs
        | cons s st2 =>
          simp only [List.length_cons, Nat.succ_inj] at hu hp hs
          simp [writeLoops, ih ut pt st2 hu hp hs]

theorem writeLoops_snd_notmem {α : Type} (cs : Bool) (ls : List (Loop α))
    (us : List α) (ps ss : List Bool) (sm : Nat → Bool) (e : Nat)
    (he : e ∉ ls.map (fun l => l.edge)) :
    (writeLoops cs ls us ps ss sm).2 e = sm e := by
  induction ls generalizing us ps ss sm with
  | nil => cases us <;> cases ps <;> cases ss <;> rfl
  | cons l lt ih =>
    cases us with
    | nil => rfl
    | cons u ut =>
      cases ps with
      | nil => rfl
      | cons q pt =>
        cases ss with
        | nil => rfl
        | cons s st2 =>
          simp only [List.map_cons, List.mem_cons, not_or] at he
          rw [writeLoops]
          simp only
          rw [ih ut pt st2 _ he.2]
          cases cs with
          | false => rfl
          | true =>
            simp [updSeam, he.1]

theorem writeLoops_snd_get {α : Type} (ls : List (Loop α)) (us : List α)
    (ps ss : List Bool) (sm : Nat → Bool)
    (hnd : (ls.map (fun l => l.edge)).Nodup)
    (hu : us.length = ls.length) (hp : ps.length = ls.length)
    (hs : ss.length = ls.length) (j : Nat) (l : Loop α) (s : Bool)
    (hl : ls[j]? = some l) (hsj : ss[j]? = some s) :
    (writeLoops true ls us ps ss sm).2 l.edge = s := by
  induction ls generalizing us ps ss sm j with
  | nil => simp at hl
  | cons l0 lt ih =>
    cases us with
    | nil => simp at hu
    | cons u ut =>
      cases ps with
      | nil => simp at hp
      | cons q pt =>
        cases ss with
        | nil => simp at hs
        | cons s0 st2 =>
          simp only [List.length_cons, Nat.succ_inj] at hu hp hs
          simp only [List.map_cons, List.nodup_cons] at hnd
          cases j with
          | zero =>
            simp only [List.getElem?_cons_zero, Option.some.injEq] at hl hsj
            subst hl
            subst hsj
            rw [writeLoops]
            simp only [if_true]
            rw [writeLoops_snd_notmem _ _ _ _ _ _ _ hnd.1]
            simp [updSeam]
          | succ j =>
            simp only [List.getElem?_cons_succ] at hl hsj
            rw [writeLoops]
            simp only [if_true]
            exact ih ut pt st2 _ hnd.2 hu hp hs j hl hsj

/-! ### Single-face write lemmas -/

theorem getElem_lt_of_some {γ : Type} {l : List γ} {n : Nat} {a : γ}
    (h : l[n]? = some a) : n < l.length := by
  by_contra hge
  rw [List.getElem?_eq_none (by omega)] at h
  exact absurd h (by simp)

theorem writeFaceFull_faces_ne {α : Type} (m : Mesh α) (idx : Nat) (us : List α)
    (ps ss : List Bool) (cs : Bool) (j : Nat) (hj : idx ≠ j) :
    (writeFaceFull m idx us ps ss cs).faces[j]? = m.faces[j]? := by
  cases hf : m.faces[idx]? with
  | none => simp only [writeFaceFull, hf]
  | some f =>
    simp only [writeFaceFull, hf]
    exact List.getElem?_set_ne hj

theorem writeFaceFull_faces_self {α : Type} (m : Mesh α) (idx : Nat) (us : List α)
    (ps ss : List Bool) (cs : Bool) :
    (writeFaceFull m idx us ps ss cs).faces[idx]? =
      (m.faces[idx]?).map (fun f => { f with loops := writeList cs f.loops us ps ss }) := by
  cases hf : m.faces[idx]? with
  | none => simp only [writeFaceFull, hf, Option.map_none']
  | some f =>
    simp only [writeFaceFull, hf, Option.map_some']
    rw [List.getElem?_set_self', hf, writeLoops_fst_eq_writeList]
    rfl

theorem writeFaceFull_length {α : Type} (m : Mesh α) (idx : Nat) (us : List α)
    (ps ss : List Bool) (cs : Bool) :
    (writeFaceFull m idx us ps ss cs).faces.length = m.faces.length := by
  cases hf : m.faces[idx]? with
  | none => simp only [writeFaceFull, hf]
  | some f => simp only [writeFaceFull, hf, List.length_set]

theorem writeFaceFull_seams_none {α : Type} (m : Mesh α) (idx : Nat) (us : List α)
    (ps ss : List Bool) (cs : Bool) (hf : m.faces[idx]? = none) :
    (writeFaceFull m idx us ps ss cs).seams = m.seams := by
  simp only [writeFaceFull, hf]

theorem writeFaceFull_seams_some {α : Type} (m : Mesh α) (idx : Nat) (us : List α)
    (ps ss : List Bool) (cs : Bool) (f : Face α) (hf : m.faces[idx]? = some f) :
    (writeFaceFull m idx us ps ss cs).seams = (writeLoops cs f.loops us ps ss m.seams).2 := by
  simp only [writeFaceFull, hf]

/-! ### Plan-application lemmas -/

theorem applyPlan_faces_notmem {α : Type} (cs : Bool) (m : Mesh α)
    (plan : List (Nat × List α × List Bool × List Bool)) (idx : Nat)
    (h : idx ∉ plan.map (fun e => e.1)) :
    (applyPlan cs m plan).faces[idx]? = m.faces[idx]? := by
  induction plan generalizing m with
  | nil => rfl
  | cons e rest ih =>
    obtain ⟨i0, us0, ps0, ss0⟩ := e
    simp only [List.map_cons, List.mem_cons, not_or] at h
    rw [applyPlan, ih _ h.2]
    exact writeFaceFull_faces_ne m i0 us0 ps0 ss0 cs idx (fun hh => h.1 hh.symm)

theorem applyPlan_faces_of_mem {α : Type} (cs : Bool) (m : Mesh α)
    (plan : List (Nat × List α × List Bool × List Bool)) (k idx : Nat)
    (us : List α) (ps ss : List Bool)
    (hnd : (plan.map (fun e => e.1)).Nodup)
    (hk : plan[k]? = some (idx, us, ps, ss)) :
    (applyPlan cs m plan).faces[idx]? =
      (m.faces[idx]?).map (fun f => { f with loops := writeList cs f.loops us ps ss }) := by
  induction plan generalizing m k with
  | nil => simp at hk
  | cons e rest ih =>
    obtain ⟨i0, us0, ps0, ss0⟩ := e
    simp only [List.map_cons, List.nodup_cons] at hnd
    cases k with
    | zero =>
      simp only [List.getElem?_cons_zero, Option.some.injEq, Prod.mk.injEq] at hk
      obtain ⟨h1, h2, h3, h4⟩ := hk
      subst h1
      subst h2
      subst h3
      subst h4
      rw [applyPlan, applyPlan_faces_notmem _ _ _ _ hnd.1]
      exact writeFaceFull_faces_self m i0 us0 ps0 ss0 cs
    | succ k =>
      simp only [List.getElem?_cons_succ] at hk
      rw [applyPlan, ih _ _ hnd.2 hk]
      have hidxmem : idx ∈ rest.map (fun e => e.1) := by
        have hmem : (idx, us, ps, ss) ∈ rest := List.getElem?_mem hk
        exact List.mem_map_of_mem _ hmem
      have hne : i0 ≠ idx := fun h => hnd.1 (h ▸ hidxmem)
      rw [writeFaceFull_faces_ne m i0 us0 ps0 ss0 cs idx hne]

theorem applyPlan_length {α : Type} (cs : Bool) (m : Mesh α)
    (plan : List (Nat × List α × List Bool × List Bool)) :
    (applyPlan cs m plan).faces.length = m.faces.length := by
  induction plan generalizing m with
  | nil => rfl
  | cons e rest ih =>
    obtain ⟨i0, us0, ps0, ss0⟩ := e
    rw [applyPlan, ih, writeFaceFull_length]

theorem applyPlan_select {α : Type} (cs : Bool) (m : Mesh α)
    (plan : List (Nat × List α × List Bool × List Bool)) (j : Nat) :
    ((applyPlan cs m plan).faces[j]?).map (fun f => f.select) =
      (m.faces[j]?).map (fun f => f.select) := by
  induction plan generalizing m with
  | nil => rfl
  | cons e rest ih =>
    obtain ⟨i0, us0, ps0, ss0⟩ := e
    rw [applyPlan, ih]
    by_cases hj : i0 = j
    · subst hj
      rw [writeFaceFull_faces_self]
      cases m.faces[i0]? <;> rfl
    · rw [writeFaceFull_faces_ne _ _ _ _ _ _ _ hj]

/-! ### Plan construction and enumeration lemmas -/

theorem rotR1_length {β : Type} (l : List β) : (rotR1 l).length = l.length := by
  cases hl : l.getLast? with
  | none =>
    have : l = [] := by
      cases l with
      | nil => rfl
      | cons a t => simp at hl
    subst this
    rfl
  | some a =>
    have hne : l ≠ [] := by
      intro h
      subst h
      simp at hl
    rw [rotR1, hl]
    simp only [List.length_cons, List.length_dropLast]
    have : 0 < l.length := List.length_pos.mpr hne
    omega

theorem rotateRight_length {β : Type} (l : List β) (k : Nat) :
    (rotateRight l k).length = l.length := by
  induction k generalizing l with
  | zero => rfl
  | succ k ih => rw [rotateRight, ih, rotR1_length]

theorem transformList_length {β : Type} (flip : Bool) (rotate : Nat) (l : List β) :
    (transformList flip rotate l).length = l.length := by
  rw [transformList, rotateRight_length]
  cases flip <;> simp

theorem transformList_id {β : Type} (l : List β) : transformList false 0 l = l := rfl

theorem planOf_map_fst {α : Type} (p : Props α) (st : Strategy) (flip : Bool)
    (rotate : Nat) (idxs : List Nat) (i0 : Nat) :
    (planOf p st flip rotate idxs i0).map (fun e => e.1) = idxs := by
  induction idxs generalizing i0 with
  | nil => rfl
  | cons idx rest ih => simp [planOf, ih]

theorem planOf_getElem {α : Type} (p : Props α) (st : Strategy) (flip : Bool)
    (rotate : Nat) (idxs : List Nat) (i0 k idx : Nat) (hk : idxs[k]? = some idx) :
    (planOf p st flip rotate idxs i0)[k]? =
      some (idx, transformList flip rotate (srcUVFor p st (i0 + k)),
        transformList flip rotate (srcPinFor p st (i0 + k)),
        transformList flip rotate (srcSeamFor p st (i0 + k))) := by
  induction idxs generalizing i0 k with
  | nil => simp at hk
  | cons idx0 rest ih =>
    cases k with
    | zero =>
      simp only [List.getElem?_cons_zero, Option.some.injEq] at hk
      subst hk
      simp [planOf]
    | succ k =>
      simp only [List.getElem?_cons_succ] at hk
      rw [planOf]
      simp only [List.getElem?_cons_succ]
      rw [ih (i0 + 1) k hk]
      have : i0 + 1 + k = i0 + (k + 1) := by omega
      rw [this]

theorem enumFacesFrom_mem {α : Type} (fs : List (Face α)) (n : Nat)
    (q : Nat × Face α) (hq : q ∈ enumFacesFrom n fs) :
    n ≤ q.1 ∧ fs[q.1 - n]? = some q.2 := by
  induction fs generalizing n with
  | nil => simp [enumFacesFrom] at hq
  | cons f ft ih =>
    rw [enumFacesFrom] at hq
    rcases List.mem_cons.mp hq with h | h
    · subst h
      simp
    · obtain ⟨h1, h2⟩ := ih (n + 1) h
      refine ⟨by omega, ?_⟩
      have : q.1 - n = (q.1 - (n + 1)) + 1 := by omega
      rw [this, List.getElem?_cons_succ]
      exact h2

theorem selIdxFaces_mem {α : Type} (m : Mesh α) (q : Nat × Face α)
    (hq : q ∈ selIdxFaces m) : m.faces[q.1]? = some q.2 ∧ q.2.select = true := by
  rw [selIdxFaces] at hq
  have h1 := List.of_mem_filter hq
  have h2 := List.mem_of_mem_filter hq
  have h3 := enumFacesFrom_mem m.faces 0 q h2
  simpa using ⟨h3.2, h1⟩

theorem enumFacesFrom_keys_nodup {α : Type} (fs : List (Face α)) (n : Nat) :
    ((enumFacesFrom n fs).map (fun q => q.1)).Nodup := by
  induction fs generalizing n with
  | nil => simp [enumFacesFrom]
  | cons f ft ih =>
    rw [enumFacesFrom]
    simp only [List.map_cons, List.nodup_cons]
    refine ⟨?_, ih (n + 1)⟩
    intro hmem
    obtain ⟨q, hq, hq1⟩ := List.mem_map.mp hmem
    have := (enumFacesFrom_mem ft (n + 1) q hq).1
    omega

theorem selIdxFaces_keys_nodup {α : Type} (m : Mesh α) :
    ((selIdxFaces m).map (fun q => q.1)).Nodup := by
  have hsub : List.Sublist (selIdxFaces m) (enumFacesFrom 0 m.faces) :=
    List.filter_sublist _
  exact List.Nodup.sublist (List.Sublist.map _ hsub) (enumFacesFrom_keys_nodup m.faces 0)

theorem forall₂_of_getElem {γ δ : Type} {R : γ → δ → Prop} :
    ∀ (l1 : List γ) (l2 : List δ), l1.length = l2.length →
      (∀ (k : Nat) (a : γ) (b : δ), l1[k]? = some a → l2[k]? = some b → R a b) →
      List.Forall₂ R l1 l2
  | [], [], _, _ => List.Forall₂.nil
  | a :: t1, b :: t2, hlen, h =>
    List.Forall₂.cons (h 0 a b (by simp) (by simp))
      (forall₂_of_getElem t1 t2 (by simpa using hlen)
        (fun k x y hx hy => h (k + 1) x y (by simpa using hx) (by simpa using hy)))
  | [], _ :: _, hlen, _ => by simp at hlen
  | _ :: _, [], hlen, _ => by simp at hlen

/-! ### Paste-loop characterization -/

theorem pasteFaces_all_match {α : Type} (p : Props α) (st : Strategy) (flip : Bool)
    (rotate : Nat) (cs : Bool) (dest_uvs : List (List α)) (idxs : List Nat)
    (i0 : Nat) (m : Mesh α)
    (h : ∀ j, j < idxs.length →
      (srcUVFor p st (i0 + j)).length = (dest_uvs.getD (i0 + j) []).length) :
    pasteFaces p st flip rotate cs dest_uvs idxs i0 m =
      (none, applyPlan cs m (planOf p st flip rotate idxs i0)) := by
  induction idxs generalizing i0 m with
  | nil => rfl
  | cons idx rest ih =>
    have h0 : (srcUVFor p st i0).length = (dest_uvs.getD i0 []).length := by
      have := h 0 (by simp)
      simpa using this
    rw [pasteFaces, if_neg (fun hc => hc h0), planOf, applyPlan]
    have hrest : ∀ j, j < rest.length →
        (srcUVFor p st (i0 + 1 + j)).length = (dest_uvs.getD (i0 + 1 + j) []).length := by
      intro j hj
      have := h (j + 1) (by simp; omega)
      rwa [show i0 + (j + 1) = i0 + 1 + j by omega] at this
    exact ih (i0 + 1) _ hrest

theorem pasteFaces_first_mismatch {α : Type} (p : Props α) (st : Strategy) (flip : Bool)
    (rotate : Nat) (cs : Bool) (dest_uvs : List (List α)) (idxs : List Nat)
    (i0 : Nat) (m : Mesh α) (t : Nat) (ht : t < idxs.length)
    (hprev : ∀ j, j < t →
      (srcUVFor p st (i0 + j)).length = (dest_uvs.getD (i0 + j) []).length)
    (hmis : (srcUVFor p st (i0 + t)).length ≠ (dest_uvs.getD (i0 + t) []).length) :
    pasteFaces p st flip rotate cs dest_uvs idxs i0 m =
      (some CpuvErr.faceSizeMismatch,
        applyPlan cs m (planOf p st flip rotate (idxs.take t) i0)) := by
  induction idxs generalizing i0 m t with
  | nil => simp at ht
  | cons idx rest ih =>
    cases t with
    | zero =>
      have hm : (srcUVFor p st i0).length ≠ (dest_uvs.getD i0 []).length := by
        simpa using hmis
      rw [pasteFaces, if_pos hm]
      rfl
    | succ t =>
      have h0 : (srcUVFor p st i0).length = (dest_uvs.getD i0 []).length := by
        have := hprev 0 (Nat.succ_pos t)
        simpa using this
      rw [pasteFaces, if_neg (fun hc => hc h0), List.take_succ_cons, planOf, applyPlan]
      refine ih (i0 + 1) _ t (by simpa using ht) ?_ ?_
      · intro j hj
        have := hprev (j + 1) (by omega)
        rwa [show i0 + (j + 1) = i0 + 1 + j by omega] at this
      · rwa [show i0 + (t + 1) = i0 + 1 + t by omega] at hmis

theorem pasteExec_reaches_loop {α : Type} (p : Props α) (m : Mesh α) (st : Strategy)
    (flip : Bool) (rotate : Nat) (cs : Bool)
    (h1 : p.src_uvs ≠ []) (h2 : p.src_pin_uvs ≠ []) (h3 : selFaces m ≠ [])
    (h4 : st = Strategy.NN → p.src_uvs.length = (captureUVs m).length) :
    MUV_CPUVPasteUV_execute p m st flip rotate cs =
      pasteFaces p st flip rotate cs (captureUVs m)
        ((selIdxFaces m).map (fun q => q.1)) 0 m := by
  have hcap : captureUVs m ≠ [] := by
    rw [captureUVs]
    simpa using h3
  have hpin : capturePins m ≠ [] := by
    rw [capturePins]
    simpa using h3
  simp only [MUV_CPUVPasteUV_execute]
  rw [if_neg (by simp [List.isEmpty_iff, h1, h2]),
    if_neg (by simp [List.isEmpty_iff, hcap, hpin]),
    if_neg (fun hc => hc.2 (h4 hc.1))]

/-! ### Seam behaviour of a plan application -/

theorem planFaceOK_transfer {α : Type} (m m2 : Mesh α)
    (plan : List (Nat × List α × List Bool × List Bool)) (F : List (Face α))
    (hpf : List.Forall₂ (PlanFaceOK m) plan F)
    (h : ∀ e ∈ plan, m2.faces[e.1]? = m.faces[e.1]?) :
    List.Forall₂ (PlanFaceOK m2) plan F := by
  induction hpf with
  | nil => exact List.Forall₂.nil
  | @cons a b t1 t2 h1 h2 ih =>
    refine List.Forall₂.cons ?_ (ih (fun e he => h e (List.mem_cons_of_mem _ he)))
    refine ⟨?_, h1.2.1, h1.2.2.1, h1.2.2.2⟩
    rw [h a (List.mem_cons_self a t1)]
    exact h1.1

theorem facesEdges_cons {α : Type} (f : Face α) (F : List (Face α)) :
    facesEdges (f :: F) = f.loops.map (fun l => l.edge) ++ facesEdges F := by
  simp [facesEdges]

theorem applyPlan_seams_notmem {α : Type} (cs : Bool) (m : Mesh α)
    (plan : List (Nat × List α × List Bool × List Bool)) (F : List (Face α))
    (hpf : List.Forall₂ (PlanFaceOK m) plan F)
    (hnd : (plan.map (fun e => e.1)).Nodup)
    (e : Nat) (he : e ∉ facesEdges F) :
    (applyPlan cs m plan).seams e = m.seams e := by
  induction plan generalizing m F with
  | nil => rfl
  | cons ent rest ih =>
    cases F with
    | nil => cases hpf
    | cons f Ft =>
      have hpc : PlanFaceOK m ent f ∧ List.Forall₂ (PlanFaceOK m) rest Ft := by
        cases hpf with
        | cons hh tt => exact ⟨hh, tt⟩
      simp only [List.map_cons, List.nodup_cons] at hnd
      rw [facesEdges_cons, List.mem_append, not_or] at he
      obtain ⟨i0, us0, ps0, ss0⟩ := ent
      rw [applyPlan]
      set m1 := writeFaceFull m i0 us0 ps0 ss0 cs with hm1
      have htrans : ∀ e2 ∈ rest, m1.faces[e2.1]? = m.faces[e2.1]? := by
        intro e2 he2
        apply writeFaceFull_faces_ne
        intro hcontra
        have hmem2 : e2.1 ∈ rest.map (fun e3 => e3.1) :=
          List.mem_map_of_mem (fun e3 => e3.1) he2
        rw [← hcontra] at hmem2
        exact hnd.1 hmem2
      rw [ih m1 Ft (planFaceOK_transfer m m1 rest Ft hpc.2 htrans) hnd.2 he.2]
      rw [hm1, writeFaceFull_seams_some m i0 us0 ps0 ss0 cs f hpc.1.1]
      exact writeLoops_snd_notmem cs f.loops us0 ps0 ss0 m.seams e he.1

theorem applyPlan_seams_get {α : Type} (m : Mesh α)
    (plan : List (Nat × List α × List Bool × List Bool)) (F : List (Face α))
    (hpf : List.Forall₂ (PlanFaceOK m) plan F)
    (hnd : (plan.map (fun e => e.1)).Nodup)
    (hend : (facesEdges F).Nodup)
    (k : Nat) (ent : Nat × List α × List Bool × List Bool) (f : Face α)
    (j : Nat) (l : Loop α) (s : Bool)
    (hk : plan[k]? = some ent) (hF : F[k]? = some f)
    (hl : f.loops[j]? = some l) (hs : ent.2.2.2[j]? = some s) :
    (applyPlan true m plan).seams l.edge = s := by
  induction plan generalizing m F k with
  | nil => simp at hk
  | cons ent0 rest ih =>
    cases F with
    | nil => cases hpf
    | cons f0 Ft =>
      have hpc : PlanFaceOK m ent0 f0 ∧ List.Forall₂ (PlanFaceOK m) rest Ft := by
        cases hpf with
        | cons hh tt => exact ⟨hh, tt⟩
      simp only [List.map_cons, List.nodup_cons] at hnd
      rw [facesEdges_cons, List.nodup_append] at hend
      obtain ⟨i0, us0, ps0, ss0⟩ := ent0
      rw [applyPlan]
      set m1 := writeFaceFull m i0 us0 ps0 ss0 true with hm1
      have htrans : ∀ e2 ∈ rest, m1.faces[e2.1]? = m.faces[e2.1]? := by
        intro e2 he2
        apply writeFaceFull_faces_ne
        intro hcontra
        have hmem2 : e2.1 ∈ rest.map (fun e3 => e3.1) :=
          List.mem_map_of_mem (fun e3 => e3.1) he2
        rw [← hcontra] at hmem2
        exact hnd.1 hmem2
      have hpf1 : List.Forall₂ (PlanFaceOK m1) rest Ft :=
        planFaceOK_transfer m m1 rest Ft hpc.2 htrans
      cases k with
      | zero =>
        simp only [List.getElem?_cons_zero, Option.some.injEq] at hk hF
        have hedge_mem : l.edge ∈ f0.loops.map (fun l2 => l2.edge) := by
          rw [hF]
          exact List.mem_map_of_mem (fun l2 => l2.edge) (List.getElem?_mem hl)
        have hnotmem : l.edge ∉ facesEdges Ft := fun hmem =>
          hend.2.2 hedge_mem hmem
        rw [applyPlan_seams_notmem true m1 rest Ft hpf1 hnd.2 l.edge hnotmem]
        rw [hm1, writeFaceFull_seams_some m i0 us0 ps0 ss0 true f0 hpc.1.1]
        have hss : ss0[j]? = some s := by
          rw [← hk] at hs
          exact hs
        have hl0 : f0.loops[j]? = some l := by
          rw [hF]
          exact hl
        exact writeLoops_snd_get f0.loops us0 ps0 ss0 m.seams hend.1
          hpc.1.2.1 hpc.1.2.2.1 hpc.1.2.2.2 j l s hl0 hss
      | succ k =>
        simp only [List.getElem?_cons_succ] at hk hF
        exact ih m1 Ft hpf1 hnd.2 hend.2.1 k hk hF

/-! ### Selection structure after a plan application -/

theorem enumFilter_keys_congr {α : Type} :
    ∀ (fs gs : List (Face α)) (n : Nat), fs.length = gs.length →
      (∀ j : Nat, (fs[j]?).map (fun f => f.select) = (gs[j]?).map (fun f => f.select)) →
      ((enumFacesFrom n fs).filter (fun q => q.2.select)).map (fun q => q.1) =
        ((enumFacesFrom n gs).filter (fun q => q.2.select)).map (fun q => q.1)
  | [], [], _, _, _ => rfl
  | [], g :: gt, _, hlen, _ => by simp at hlen
  | f :: ft, [], _, hlen, _ => by simp at hlen
  | f :: ft, g :: gt, n, hlen, hsel => by
    have h0 : f.select = g.select := by
      have := hsel 0
      simpa using this
    have htail := enumFilter_keys_congr ft gt (n + 1) (by simpa using hlen)
      (fun j => by simpa using hsel (j + 1))
    rw [enumFacesFrom, enumFacesFrom]
    cases hfs : f.select with
    | false =>
      have hgs : g.select = false := by rw [← h0]; exact hfs
      rw [List.filter_cons, List.filter_cons]
      simp only [hfs, hgs, Bool.false_eq_true, if_false]
      exact htail
    | true =>
      have hgs : g.select = true := by rw [← h0]; exact hfs
      rw [List.filter_cons, List.filter_cons]
      simp only [hfs, hgs, if_true, List.map_cons]
      rw [htail]

theorem selIdx_applyPlan_keys {α : Type} (cs : Bool) (m : Mesh α)
    (plan : List (Nat × List α × List Bool × List Bool)) :
    (selIdxFaces (applyPlan cs m plan)).map (fun q => q.1) =
      (selIdxFaces m).map (fun q => q.1) := by
  rw [selIdxFaces, selIdxFaces]
  exact enumFilter_keys_congr (applyPlan cs m plan).faces m.faces 0
    (applyPlan_length cs m plan) (applyPlan_select cs m plan)

theorem selIdxFaces_getElem_applyPlan {α : Type} (cs : Bool) (m : Mesh α)
    (plan : List (Nat × List α × List Bool × List Bool)) (k i : Nat) (f : Face α)
    (hk : (selIdxFaces m)[k]? = some (i, f)) :
    ∃ f2, (selIdxFaces (applyPlan cs m plan))[k]? = some (i, f2) ∧
      (applyPlan cs m plan).faces[i]? = some f2 := by
  have hkeys := selIdx_applyPlan_keys cs m plan
  have h1 : ((selIdxFaces (applyPlan cs m plan)).map (fun q => q.1))[k]? = some i := by
    rw [hkeys, List.getElem?_map, hk]
    rfl
  rw [List.getElem?_map] at h1
  cases hq : (selIdxFaces (applyPlan cs m plan))[k]? with
  | none => rw [hq] at h1; simp at h1
  | some q =>
    obtain ⟨q1, q2⟩ := q
    rw [hq] at h1
    simp only [Option.map_some', Option.some.injEq] at h1
    have hv := selIdxFaces_mem _ (q1, q2) (List.getElem?_mem hq)
    subst h1
    exact ⟨q2, rfl, hv.1⟩

/-! ### Capture indexing helpers -/

theorem captureUVs_getElem {α : Type} (m : Mesh α) (k : Nat) :
    (captureUVs m)[k]? = ((selIdxFaces m)[k]?).map (fun q => faceUVs q.2) := by
  rw [captureUVs, selFaces, List.map_map, List.getElem?_map]
  rfl

theorem capturePins_getElem {α : Type} (m : Mesh α) (k : Nat) :
    (capturePins m)[k]? = ((selIdxFaces m)[k]?).map (fun q => facePins q.2) := by
  rw [capturePins, selFaces, List.map_map, List.getElem?_map]
  rfl

theorem captureSeams_getElem {α : Type} (m : Mesh α) (k : Nat) :
    (captureSeams m)[k]? = ((selIdxFaces m)[k]?).map (fun q => faceSeams m q.2) := by
  rw [captureSeams, selFaces, List.map_map, List.getElem?_map]
  rfl

theorem captureUVs_getD {α : Type} (m : Mesh α) (k ii : Nat) (f : Face α)
    (hq : (selIdxFaces m)[k]? = some (ii, f)) :
    (captureUVs m).getD k [] = faceUVs f := by
  rw [List.getD_eq_getElem?_getD, captureUVs_getElem, hq]
  rfl

theorem selFaces_ne_nil_of_getElem {α : Type} (m : Mesh α) (k : Nat)
    (q : Nat × Face α) (hq : (selIdxFaces m)[k]? = some q) : selFaces m ≠ [] := by
  have hk := getElem_lt_of_some hq
  apply List.ne_nil_of_length_pos
  rw [selFaces, List.length_map]
  omega

/-! ### C6: mid-batch FaceSizeMismatch keeps earlier writes -/

/-- C6: when the preconditions pass and the first bundle-size mismatch of
the paste loop occurs at pair `i`, the operation fails with
`FaceSizeMismatch` and the resulting mesh is exactly the mesh with the
writes of pairs `0 .. i-1` committed (no rollback). -/
theorem claim_C6 {α : Type} (p : Props α) (m : Mesh α) (st : Strategy)
    (flip : Bool) (rotate : Nat) (cs : Bool) (i : Nat)
    (h1 : p.src_uvs ≠ []) (h2 : p.src_pin_uvs ≠ [])
    (h4 : st = Strategy.NN → p.src_uvs.length = (captureUVs m).length)
    (hi : i < (selIdxFaces m).length)
    (hprev : ∀ j, j < i →
      (srcUVFor p st j).length = ((captureUVs m).getD j []).length)
    (hmis : (srcUVFor p st i).length ≠ ((captureUVs m).getD i []).length) :
    MUV_CPUVPasteUV_execute p m st flip rotate cs =
      (some CpuvErr.faceSizeMismatch,
        applyPlan cs m (planOf p st flip rotate
          ((((selIdxFaces m).map (fun q => q.1))).take i) 0)) := by
  have h3 : selFaces m ≠ [] := by
    apply List.ne_nil_of_length_pos
    rw [selFaces, List.length_map]
    omega
  rw [pasteExec_reaches_loop p m st flip rotate cs h1 h2 h3 h4]
  exact pasteFaces_first_mismatch p st flip rotate cs (captureUVs m)
    ((selIdxFaces m).map (fun q => q.1)) 0 m i
    (by simpa using hi)
    (fun j hj => by simpa using hprev j hj)
    (by simpa using hmis)

/-- Witness for C6: two captured bundles of sizes 1 and 2 pasted onto two
one-corner faces; the mismatch is detected at pair 1 and pair 0's write
stays committed. -/
theorem claim_C6_witness :
    MUV_CPUVPasteUV_execute
        (⟨[[true], [true, true]], [[false], [false, false]], [[false], [false, false]]⟩ :
          Props Bool)
        ⟨[⟨true, [⟨true, false, 0, false⟩]⟩, ⟨true, [⟨true, false, 1, false⟩]⟩],
          fun _ => false⟩ Strategy.NN false 0 true =
      (some CpuvErr.faceSizeMismatch,
        applyPlan true
          (⟨[⟨true, [⟨true, false, 0, false⟩]⟩, ⟨true, [⟨true, false, 1, false⟩]⟩],
            fun _ => false⟩ : Mesh Bool)
          (planOf
            (⟨[[true], [true, true]], [[false], [false, false]], [[false], [false, false]]⟩ :
              Props Bool) Strategy.NN false 0
            (((selIdxFaces
              (⟨[⟨true, [⟨true, false, 0, false⟩]⟩, ⟨true, [⟨true, false, 1, false⟩]⟩],
                fun _ => false⟩ : Mesh Bool)).map (fun q => q.1)).take 1) 0)) :=
  claim_C6 _ _ Strategy.NN false 0 true 1 (by decide) (by decide)
    (fun _ => by decide) (by decide)
    (fun j hj => by
      have hj0 : j = 0 := by omega
      subst hj0
      decide)
    (by decide)

/-! ### C7: Wrap-strategy pairing -/

/-- C7: under the Wrap (N:M) strategy, as long as the loop has not
aborted before reaching it, the destination face at position `i` is
written with the transformed source bundle at index
`i mod len(captureSet)`, both for UVs and for pin flags. -/
theorem claim_C7 {α : Type} (p : Props α) (m : Mesh α) (flip : Bool) (rotate : Nat)
    (cs : Bool) (i ii : Nat) (f : Face α)
    (hal : PropsAligned p)
    (h1 : p.src_uvs ≠ []) (h2 : p.src_pin_uvs ≠ [])
    (hq : (selIdxFaces m)[i]? = some (ii, f))
    (hsz : ∀ j, j ≤ i →
      (srcUVFor p Strategy.NM j).length = ((captureUVs m).getD j []).length) :
    ∃ f2, (MUV_CPUVPasteUV_execute p m Strategy.NM flip rotate cs).2.faces[ii]? = some f2 ∧
      faceUVs f2 = transformList flip rotate (p.src_uvs.getD (i % p.src_uvs.length) []) ∧
      facePins f2 = transformList flip rotate (p.src_pin_uvs.getD (i % p.src_uvs.length) []) := by
  have hi : i < (selIdxFaces m).length := getElem_lt_of_some hq
  have h3 : selFaces m ≠ [] := selFaces_ne_nil_of_getElem m i _ hq
  rw [pasteExec_reaches_loop p m Strategy.NM flip rotate cs h1 h2 h3 (fun hc => nomatch hc)]
  have hikeys : ((selIdxFaces m).map (fun q => q.1))[i]? = some ii := by
    rw [List.getElem?_map, hq]
    rfl
  obtain ⟨L, hres, hLi, hLsub⟩ :
      ∃ L, (pasteFaces p Strategy.NM flip rotate cs (captureUVs m)
          ((selIdxFaces m).map (fun q => q.1)) 0 m).2 =
        applyPlan cs m (planOf p Strategy.NM flip rotate L 0) ∧
        L[i]? = some ii ∧
        List.Sublist L ((selIdxFaces m).map (fun q => q.1)) := by
    by_cases hall : ∀ j, j < ((selIdxFaces m).map (fun q => q.1)).length →
        (srcUVFor p Strategy.NM (0 + j)).length = ((captureUVs m).getD (0 + j) []).length
    · refine ⟨(selIdxFaces m).map (fun q => q.1), ?_, hikeys, List.Sublist.refl _⟩
      rw [pasteFaces_all_match p Strategy.NM flip rotate cs (captureUVs m) _ 0 m hall]
    · push_neg at hall
      obtain ⟨j0, hj0len, hj0mis⟩ := hall
      have hex : ∃ t, (srcUVFor p Strategy.NM t).length ≠
          ((captureUVs m).getD t []).length ∧
          t < ((selIdxFaces m).map (fun q => q.1)).length :=
        ⟨0 + j0, hj0mis, by simpa using hj0len⟩
      have hts := Nat.find_spec hex
      have hti : i < Nat.find hex := by
        rcases Nat.lt_or_ge i (Nat.find hex) with h | h
        · exact h
        · exact absurd (hsz (Nat.find hex) h) hts.1
      refine ⟨((selIdxFaces m).map (fun q => q.1)).take (Nat.find hex), ?_, ?_, ?_⟩
      · rw [pasteFaces_first_mismatch p Strategy.NM flip rotate cs (captureUVs m)
            _ 0 m (Nat.find hex) hts.2
            (fun j hj => by
              have hnf := Nat.find_min hex hj
              push_neg at hnf
              simp only [Nat.zero_add]
              by_contra hc
              have hjlen : j < ((selIdxFaces m).map (fun q => q.1)).length := by
                omega
              exact absurd (hnf hc) (by omega))
            (by simpa using hts.1)]
      · rw [List.getElem?_take, if_pos hti]
        exact hikeys
      · exact List.take_sublist _ _
  rw [hres]
  have hnd : ((planOf p Strategy.NM flip rotate L 0).map (fun e => e.1)).Nodup := by
    rw [planOf_map_fst]
    exact List.Nodup.sublist hLsub (selIdxFaces_keys_nodup m)
  have hplan := planOf_getElem p Strategy.NM flip rotate L 0 i ii hLi
  rw [Nat.zero_add] at hplan
  have hface := applyPlan_faces_of_mem cs m (planOf p Strategy.NM flip rotate L 0)
    i ii _ _ _ hnd hplan
  have hmf : m.faces[ii]? = some f := (selIdxFaces_mem m (ii, f) (List.getElem?_mem hq)).1
  rw [hmf] at hface
  have hculen : (captureUVs m).getD i [] = faceUVs f := captureUVs_getD m i ii f hq
  have hulen : (srcUVFor p Strategy.NM i).length = f.loops.length := by
    rw [hsz i (Nat.le_refl i), hculen, faceUVs, List.length_map]
  have hmodeq : i % p.src_pin_uvs.length = i % p.src_uvs.length := by
    rw [hal.1]
  have hmodeq2 : i % p.src_seams.length = i % p.src_uvs.length := by
    rw [hal.2.1]
  have hplen : (srcPinFor p Strategy.NM i).length = f.loops.length := by
    rw [srcPinFor]
    rw [hmodeq, hal.2.2.1 (i % p.src_uvs.length)]
    rw [← srcUVFor] at *
    exact hulen
  have hslen : (srcSeamFor p Strategy.NM i).length = f.loops.length := by
    rw [srcSeamFor, hmodeq2, hal.2.2.2 (i % p.src_uvs.length)]
    exact hulen
  refine ⟨_, hface, ?_, ?_⟩
  · rw [faceUVs, writeList_map_uv _ _ _ _ _ (by rw [transformList_length]; exact hulen)
      (by rw [transformList_length]; exact hplen)
      (by rw [transformList_length]; exact hslen)]
    rfl
  · rw [facePins, writeList_map_pin _ _ _ _ _ (by rw [transformList_length]; exact hulen)
      (by rw [transformList_length]; exact hplen)
      (by rw [transformList_length]; exact hslen)]
    rw [srcPinFor, hmodeq]

/-- Witness for C7: a CaptureSet of size 2 pasted onto 5 one-corner
destination faces pairs destination positions 0..4 with source bundles
0,1,0,1,0 (bundle 0 has UV list `[true]`, bundle 1 has `[false]`). -/
theorem claim_C7_witness :
    (∃ f2, (MUV_CPUVPasteUV_execute
        (⟨[[true], [false]], [[false], [true]], [[true], [true]]⟩ : Props Bool)
        ⟨[⟨true, [⟨true, true, 0, false⟩]⟩, ⟨true, [⟨true, true, 1, false⟩]⟩,
          ⟨true, [⟨true, true, 2, false⟩]⟩, ⟨true, [⟨true, true, 3, false⟩]⟩,
          ⟨true, [⟨true, true, 4, false⟩]⟩], fun _ => false⟩
        Strategy.NM false 0 true).2.faces[0]? = some f2 ∧
      faceUVs f2 = [true] ∧ facePins f2 = [false]) ∧
    (∃ f2, (MUV_CPUVPasteUV_execute
        (⟨[[true], [false]], [[false], [true]], [[true], [true]]⟩ : Props Bool)
        ⟨[⟨true, [⟨true, true, 0, false⟩]⟩, ⟨true, [⟨true, true, 1, false⟩]⟩,
          ⟨true, [⟨true, true, 2, false⟩]⟩, ⟨true, [⟨true, true, 3, false⟩]⟩,
          ⟨true, [⟨true, true, 4, false⟩]⟩], fun _ => false⟩
        Strategy.NM false 0 true).2.faces[1]? = some f2 ∧
      faceUVs f2 = [false] ∧ facePins f2 = [true]) ∧
    (∃ f2, (MUV_CPUVPasteUV_execute
        (⟨[[true], [false]], [[false], [true]], [[true], [true]]⟩ : Props Bool)
        ⟨[⟨true, [⟨true, true, 0, false⟩]⟩, ⟨true, [⟨true, true, 1, false⟩]⟩,
          ⟨true, [⟨true, true, 2, false⟩]⟩, ⟨true, [⟨true, true, 3, false⟩]⟩,
          ⟨true, [⟨true, true, 4, false⟩]⟩], fun _ => false⟩
        Strategy.NM false 0 true).2.faces[2]? = some f2 ∧
      faceUVs f2 = [true] ∧ facePins f2 = [false]) ∧
    (∃ f2, (MUV_CPUVPasteUV_execute
        (⟨[[true], [false]], [[false], [true]], [[true], [true]]⟩ : Props Bool)
        ⟨[⟨true, [⟨true, true, 0, false⟩]⟩, ⟨true, [⟨true, true, 1, false⟩]⟩,
          ⟨true, [⟨true, true, 2, false⟩]⟩, ⟨true, [⟨true, true, 3, false⟩]⟩,
          ⟨true, [⟨true, true, 4, false⟩]⟩], fun _ => false⟩
        Strategy.NM false 0 true).2.faces[3]? = some f2 ∧
      faceUVs f2 = [false] ∧ facePins f2 = [true]) ∧
    (∃ f2, (MUV_CPUVPasteUV_execute
        (⟨[[true], [false]], [[false], [true]], [[true], [true]]⟩ : Props Bool)
        ⟨[⟨true, [⟨true, true, 0, false⟩]⟩, ⟨true, [⟨true, true, 1, false⟩]⟩,
          ⟨true, [⟨true, true, 2, false⟩]⟩, ⟨true, [⟨true, true, 3, false⟩]⟩,
          ⟨true, [⟨true, true, 4, false⟩]⟩], fun _ => false⟩
        Strategy.NM false 0 true).2.faces[4]? = some f2 ∧
      faceUVs f2 = [true] ∧ facePins f2 = [false]) := by
  have hal : PropsAligned
      (⟨[[true], [false]], [[false], [true]], [[true], [true]]⟩ : Props Bool) := by
    refine ⟨rfl, rfl, fun k => ?_, fun k => ?_⟩ <;>
      rcases k with _ | _ | k <;> rfl
  refine ⟨?_, ?_, ?_, ?_, ?_⟩
  · exact claim_C7 _ _ false 0 true 0 0 ⟨true, [⟨true, true, 0, false⟩]⟩ hal (by decide) (by decide) (by decide)
      (fun j hj => by interval_cases j; decide)
  · exact claim_C7 _ _ false 0 true 1 1 ⟨true, [⟨true, true, 1, false⟩]⟩ hal (by decide) (by decide) (by decide)
      (fun j hj => by interval_cases j <;> decide)
  · exact claim_C7 _ _ false 0 true 2 2 ⟨true, [⟨true, true, 2, false⟩]⟩ hal (by decide) (by decide) (by decide)
      (fun j hj => by interval_cases j <;> decide)
  · exact claim_C7 _ _ false 0 true 3 3 ⟨true, [⟨true, true, 3, false⟩]⟩ hal (by decide) (by decide) (by decide)
      (fun j hj => by interval_cases j <;> decide)
  · exact claim_C7 _ _ false 0 true 4 4 ⟨true, [⟨true, true, 4, false⟩]⟩ hal (by decide) (by decide) (by decide)
      (fun j hj => by interval_cases j <;> decide)

/-! ### Round-trip helpers -/

theorem forall₂_getElem {γ δ : Type} {R : γ → δ → Prop} {l1 : List γ} {l2 : List δ}
    (h : List.Forall₂ R l1 l2) :
    ∀ (k : Nat) (a : γ) (b : δ), l1[k]? = some a → l2[k]? = some b → R a b := by
  induction h with
  | nil => intro k a b ha _; simp at ha
  | @cons x y t1 t2 hxy _ ih =>
    intro k a b ha hb
    cases k with
    | zero =>
      simp only [List.getElem?_cons_zero, Option.some.injEq] at ha hb
      rw [← ha, ← hb]
      exact hxy
    | succ k =>
      simp only [List.getElem?_cons_succ] at ha hb
      exact ih k a b ha hb

theorem writeList_length {α : Type} (cs : Bool) (ls : List (Loop α)) (us : List α)
    (ps ss : List Bool) : (writeList cs ls us ps ss).length = ls.length := by
  rw [writeList]
  exact writeLoops_fst_length cs ls us ps ss _

theorem writeList_map_edge {α : Type} (cs : Bool) (ls : List (Loop α)) (us : List α)
    (ps ss : List Bool) :
    (writeList cs ls us ps ss).map (fun l => l.edge) = ls.map (fun l => l.edge) := by
  rw [writeList]
  exact writeLoops_fst_edges cs ls us ps ss _

theorem capture_pin_lengths {α : Type} (m : Mesh α) (k : Nat) :
    ((capturePins m).getD k []).length = ((captureUVs m).getD k []).length := by
  rw [List.getD_eq_getElem?_getD, List.getD_eq_getElem?_getD, capturePins_getElem,
    captureUVs_getElem]
  cases hsel : (selIdxFaces m)[k]? with
  | none => rfl
  | some q => simp [facePins, faceUVs]

theorem capture_seam_lengths {α : Type} (m : Mesh α) (k : Nat) :
    ((captureSeams m).getD k []).length = ((captureUVs m).getD k []).length := by
  rw [List.getD_eq_getElem?_getD, List.getD_eq_getElem?_getD, captureSeams_getElem,
    captureUVs_getElem]
  cases hsel : (selIdxFaces m)[k]? with
  | none => rfl
  | some q => simp [faceSeams, faceUVs]

theorem capture_top_lengths {α : Type} (m : Mesh α) :
    (capturePins m).length = (captureUVs m).length ∧
    (captureSeams m).length = (captureUVs m).length := by
  constructor
  · rw [capturePins, captureUVs, List.length_map, List.length_map]
  · rw [captureSeams, captureUVs, List.length_map, List.length_map]

theorem copy_snd {α : Type} (m : Mesh α) (p : Props α) :
    (MUV_CPUVCopyUV_execute m p).2 =
      ⟨captureUVs m, capturePins m, captureSeams m⟩ := by
  rw [MUV_CPUVCopyUV_execute]
  split
  · rfl
  · rfl

theorem copy_ok_nonempty {α : Type} (m : Mesh α) (p : Props α)
    (h : (MUV_CPUVCopyUV_execute m p).1 = none) :
    captureUVs m ≠ [] ∧ capturePins m ≠ [] := by
  rw [MUV_CPUVCopyUV_execute] at h
  by_cases hemp : ((captureUVs m).isEmpty || (capturePins m).isEmpty) = true
  · rw [if_pos hemp] at h
    simp at h
  · simp only [Bool.or_eq_true, List.isEmpty_iff, not_or] at hemp
    exact hemp

/-! ### C3: round-trip fidelity of the face-set engine -/


/-- C3 amended: round-trip fidelity holds for a Strict paste with
`flip = false`, `rotate = 0`, `copySeams = true` onto a destination
selection with matching per-position corner counts, provided additionally
that no two corners of the destination selection share an edge (shared
edges alias the per-edge seam flag, see the counterexample). -/
theorem claim_C3_amended {α : Type} (msrc mdst : Mesh α) (p0 B : Props α)
    (hB : MUV_CPUVCopyUV_execute msrc p0 = (none, B))
    (hcnt : List.Forall₂ (fun (b : List α) (f : Face α) => b.length = f.loops.length)
      B.src_uvs (selFaces mdst))
    (hedges : (facesEdges (selFaces mdst)).Nodup) :
    (MUV_CPUVPasteUV_execute B mdst Strategy.NN false 0 true).1 = none ∧
    captureTriple (MUV_CPUVPasteUV_execute B mdst Strategy.NN false 0 true).2 =
      (B.src_uvs, B.src_pin_uvs, B.src_seams) := by
  have hBval : B = ⟨captureUVs msrc, capturePins msrc, captureSeams msrc⟩ := by
    have h2 := copy_snd msrc p0
    rw [hB] at h2
    exact h2
  have hBfst : (MUV_CPUVCopyUV_execute msrc p0).1 = none := by rw [hB]
  have hne := copy_ok_nonempty msrc p0 hBfst
  have h1 : B.src_uvs ≠ [] := by rw [hBval]; exact hne.1
  have h2 : B.src_pin_uvs ≠ [] := by rw [hBval]; exact hne.2
  have hpinlen : ∀ k, (B.src_pin_uvs.getD k []).length = (B.src_uvs.getD k []).length := by
    intro k
    rw [hBval]
    exact capture_pin_lengths msrc k
  have hseamlen : ∀ k, (B.src_seams.getD k []).length = (B.src_uvs.getD k []).length := by
    intro k
    rw [hBval]
    exact capture_seam_lengths msrc k
  have htop : B.src_pin_uvs.length = B.src_uvs.length ∧
      B.src_seams.length = B.src_uvs.length := by
    rw [hBval]
    exact capture_top_lengths msrc
  have hlen : B.src_uvs.length = (selFaces mdst).length := List.Forall₂.length_eq hcnt
  have hsellen : (selFaces mdst).length = (selIdxFaces mdst).length := by
    rw [selFaces, List.length_map]
  have hcaplen : (captureUVs mdst).length = (selIdxFaces mdst).length := by
    rw [captureUVs, selFaces, List.length_map, List.length_map]
  have huvpos : 0 < B.src_uvs.length := by
    rcases Nat.eq_zero_or_pos B.src_uvs.length with hz | hp
    · exact absurd (List.eq_nil_of_length_eq_zero hz) h1
    · exact hp
  have h3 : selFaces mdst ≠ [] := by
    apply List.ne_nil_of_length_pos
    omega
  have h4 : Strategy.NN = Strategy.NN → B.src_uvs.length = (captureUVs mdst).length :=
    fun _ => by omega
  have hqk : ∀ k, k < (selIdxFaces mdst).length →
      ∃ ii f, (selIdxFaces mdst)[k]? = some (ii, f) := by
    intro k hk
    exact ⟨((selIdxFaces mdst)[k]).1, ((selIdxFaces mdst)[k]).2,
      by rw [List.getElem?_eq_getElem hk]⟩
  have hmatch : ∀ (k ii : Nat) (f : Face α), k < (selIdxFaces mdst).length →
      (selIdxFaces mdst)[k]? = some (ii, f) →
      (B.src_uvs.getD k []).length = f.loops.length := by
    intro k ii f hk hq
    have hsf : (selFaces mdst)[k]? = some f := by
      rw [selFaces, List.getElem?_map, hq]
      rfl
    have hklt : k < B.src_uvs.length := by omega
    have hBk : B.src_uvs[k]? = some (B.src_uvs.getD k []) := by
      rw [List.getD_eq_getElem?_getD, List.getElem?_eq_getElem hklt]
      rfl
    exact forall₂_getElem hcnt k _ f hBk hsf
  have hall : ∀ j, j < ((selIdxFaces mdst).map (fun q => q.1)).length →
      (srcUVFor B Strategy.NN (0 + j)).length =
        ((captureUVs mdst).getD (0 + j) []).length := by
    intro j hj
    simp only [Nat.zero_add, List.length_map] at hj ⊢
    obtain ⟨ii, f, hq⟩ := hqk j hj
    rw [srcUVFor, captureUVs_getD mdst j ii f hq, faceUVs, List.length_map]
    exact hmatch j ii f hj hq
  rw [pasteExec_reaches_loop B mdst Strategy.NN false 0 true h1 h2 h3 h4,
    pasteFaces_all_match B Strategy.NN false 0 true (captureUVs mdst) _ 0 mdst hall]
  refine ⟨rfl, ?_⟩
  show captureTriple (applyPlan true mdst
      (planOf B Strategy.NN false 0 ((selIdxFaces mdst).map (fun q => q.1)) 0)) =
    (B.src_uvs, B.src_pin_uvs, B.src_seams)
  set plan := planOf B Strategy.NN false 0 ((selIdxFaces mdst).map (fun q => q.1)) 0
    with hplandef
  set m2 := applyPlan true mdst plan with hm2def
  have hndidx : ((selIdxFaces mdst).map (fun q => q.1)).Nodup := selIdxFaces_keys_nodup mdst
  have hndplan : (plan.map (fun e => e.1)).Nodup := by
    rw [hplandef, planOf_map_fst]
    exact hndidx
  have hplanlen : plan.length = (selIdxFaces mdst).length := by
    have hh := congrArg List.length (planOf_map_fst B Strategy.NN false 0
      ((selIdxFaces mdst).map (fun q => q.1)) 0)
    simp only [List.length_map] at hh
    rw [hplandef]
    exact hh
  have hplank : ∀ (k ii : Nat) (f : Face α), (selIdxFaces mdst)[k]? = some (ii, f) →
      plan[k]? = some (ii, B.src_uvs.getD k [], B.src_pin_uvs.getD k [],
        B.src_seams.getD k []) := by
    intro k ii f hq
    have hik : ((selIdxFaces mdst).map (fun q => q.1))[k]? = some ii := by
      rw [List.getElem?_map, hq]
      rfl
    have hpo := planOf_getElem B Strategy.NN false 0
      ((selIdxFaces mdst).map (fun q => q.1)) 0 k ii hik
    rw [Nat.zero_add] at hpo
    rw [hplandef]
    exact hpo
  have hface : ∀ (k ii : Nat) (f : Face α), (selIdxFaces mdst)[k]? = some (ii, f) →
      m2.faces[ii]? = some (roundWrite B k f) := by
    intro k ii f hq
    have hmem := applyPlan_faces_of_mem true mdst plan k ii _ _ _ hndplan
      (hplank k ii f hq)
    rw [hm2def, hmem, (selIdxFaces_mem mdst (ii, f) (List.getElem?_mem hq)).1]
    rfl
  have hsel2 : ∀ (k ii : Nat) (f : Face α), (selIdxFaces mdst)[k]? = some (ii, f) →
      (selIdxFaces m2)[k]? = some (ii, roundWrite B k f) := by
    intro k ii f hq
    obtain ⟨f2, hs2, hf2⟩ := selIdxFaces_getElem_applyPlan true mdst plan k ii f hq
    rw [← hm2def] at hs2 hf2
    have heq : some f2 = some (roundWrite B k f) := by
      rw [← hf2]
      exact hface k ii f hq
    simp only [Option.some.injEq] at heq
    rw [hs2, heq]
  have hlen2 : (selIdxFaces m2).length = (selIdxFaces mdst).length := by
    have hh := congrArg List.length (selIdx_applyPlan_keys true mdst plan)
    simp only [List.length_map] at hh
    rw [hm2def]
    exact hh
  have hcomp1 : captureUVs m2 = B.src_uvs := by
    apply List.ext_getElem?
    intro k
    by_cases hk : k < (selIdxFaces mdst).length
    · obtain ⟨ii, f, hq⟩ := hqk k hk
      rw [captureUVs_getElem, hsel2 k ii f hq]
      simp only [Option.map_some']
      have hulen2 : (B.src_uvs.getD k []).length = f.loops.length := hmatch k ii f hk hq
      have hval : faceUVs (roundWrite B k f) = B.src_uvs.getD k [] := by
        simp only [roundWrite, faceUVs]
        exact writeList_map_uv true f.loops _ _ _ hulen2
          (by rw [hpinlen k]; exact hulen2) (by rw [hseamlen k]; exact hulen2)
      rw [hval]
      have hklt : k < B.src_uvs.length := by omega
      rw [List.getD_eq_getElem?_getD, List.getElem?_eq_getElem hklt]
      rfl
    · have hklen1 : (captureUVs m2).length ≤ k := by
        rw [captureUVs, selFaces, List.length_map, List.length_map]
        omega
      have hklen2 : B.src_uvs.length ≤ k := by omega
      rw [List.getElem?_eq_none hklen1, List.getElem?_eq_none hklen2]
  have hcomp2 : capturePins m2 = B.src_pin_uvs := by
    apply List.ext_getElem?
    intro k
    by_cases hk : k < (selIdxFaces mdst).length
    · obtain ⟨ii, f, hq⟩ := hqk k hk
      rw [capturePins_getElem, hsel2 k ii f hq]
      simp only [Option.map_some']
      have hulen2 : (B.src_uvs.getD k []).length = f.loops.length := hmatch k ii f hk hq
      have hval : facePins (roundWrite B k f) = B.src_pin_uvs.getD k [] := by
        simp only [roundWrite, facePins]
        exact writeList_map_pin true f.loops _ _ _ hulen2
          (by rw [hpinlen k]; exact hulen2) (by rw [hseamlen k]; exact hulen2)
      rw [hval]
      have hklt : k < B.src_pin_uvs.length := by omega
      rw [List.getD_eq_getElem?_getD, List.getElem?_eq_getElem hklt]
      rfl
    · have hklen1 : (capturePins m2).length ≤ k := by
        rw [capturePins, selFaces, List.length_map, List.length_map]
        omega
      have hklen2 : B.src_pin_uvs.length ≤ k := by omega
      rw [List.getElem?_eq_none hklen1, List.getElem?_eq_none hklen2]
  have hpf : List.Forall₂ (PlanFaceOK mdst) plan (selFaces mdst) := by
    apply forall₂_of_getElem
    · omega
    · intro k ent f hk hf
      have hklt : k < (selIdxFaces mdst).length := by
        have := getElem_lt_of_some hk
        omega
      have hq : (selIdxFaces mdst)[k]? = some (((selIdxFaces mdst)[k]).1, f) := by
        rw [selFaces, List.getElem?_map] at hf
        rw [List.getElem?_eq_getElem hklt] at hf ⊢
        simp only [Option.map_some', Option.some.injEq] at hf
        rw [← hf]
      have hent : ent = (((selIdxFaces mdst)[k]).1, B.src_uvs.getD k [],
          B.src_pin_uvs.getD k [], B.src_seams.getD k []) := by
        have hpk := hplank k _ f hq
        rw [hk] at hpk
        simpa using hpk
      subst hent
      refine ⟨(selIdxFaces_mem mdst _ (List.getElem?_mem hq)).1, ?_, ?_, ?_⟩
      · exact hmatch k _ f hklt hq
      · rw [hpinlen k]
        exact hmatch k _ f hklt hq
      · rw [hseamlen k]
        exact hmatch k _ f hklt hq
  have hcomp3 : captureSeams m2 = B.src_seams := by
    apply List.ext_getElem?
    intro k
    by_cases hk : k < (selIdxFaces mdst).length
    · obtain ⟨ii, f, hq⟩ := hqk k hk
      rw [captureSeams_getElem, hsel2 k ii f hq]
      simp only [Option.map_some']
      have hklt : k < B.src_seams.length := by omega
      rw [List.getElem?_eq_getElem hklt]
      refine congrArg some ?_
      have hulen2 : (B.src_uvs.getD k []).length = f.loops.length := hmatch k ii f hk hq
      have hedgemap : (roundWrite B k f).loops.map (fun l => l.edge) =
          f.loops.map (fun l => l.edge) := by
        simp only [roundWrite]
        exact writeList_map_edge true f.loops _ _ _
      have hsgk : B.src_seams.getD k [] = B.src_seams[k] := by
        rw [List.getD_eq_getElem?_getD, List.getElem?_eq_getElem hklt]
        rfl
      apply List.ext_getElem?
      intro j
      rw [faceSeams, List.getElem?_map]
      have hjedge := congrArg (fun t => t[j]?) hedgemap
      simp only [List.getElem?_map] at hjedge
      by_cases hj : j < f.loops.length
      · have hfl : f.loops[j]? = some (f.loops[j]) := List.getElem?_eq_getElem hj
        have hwllen : j < (roundWrite B k f).loops.length := by
          simp only [roundWrite]
          rw [writeList_length]
          exact hj
        have hwl : (roundWrite B k f).loops[j]? =
            some ((roundWrite B k f).loops[j]) := List.getElem?_eq_getElem hwllen
        rw [hwl, hfl] at hjedge
        simp only [Option.map_some', Option.some.injEq] at hjedge
        rw [hwl]
        simp only [Option.map_some']
        have hjs : j < (B.src_seams.getD k []).length := by
          rw [hseamlen k]
          omega
        have hjs2 : j < (B.src_seams[k]).length := by
          rw [← hsgk]
          exact hjs
        have hsf : (selFaces mdst)[k]? = some f := by
          rw [selFaces, List.getElem?_map, hq]
          rfl
        have hseamval := applyPlan_seams_get mdst plan (selFaces mdst) hpf hndplan
          hedges k _ f j (f.loops[j]) ((B.src_seams[k])[j])
          (hplank k ii f hq) hsf hfl
          (by
            show (B.src_seams.getD k [])[j]? = some ((B.src_seams[k])[j])
            rw [hsgk]
            exact List.getElem?_eq_getElem hjs2)
        rw [← hm2def] at hseamval
        rw [hjedge, hseamval, List.getElem?_eq_getElem hjs2]
      · have hj1 : (roundWrite B k f).loops.length ≤ j := by
          simp only [roundWrite]
          rw [writeList_length]
          omega
        have hj2 : (B.src_seams[k]).length ≤ j := by
          rw [← hsgk, hseamlen k]
          omega
        rw [List.getElem?_eq_none hj1, List.getElem?_eq_none hj2]
        rfl
    · have hklen1 : (captureSeams m2).length ≤ k := by
        rw [captureSeams, selFaces, List.length_map, List.length_map]
        omega
      have hklen2 : B.src_seams.length ≤ k := by omega
      rw [List.getElem?_eq_none hklen1, List.getElem?_eq_none hklen2]
  rw [captureTriple, hcomp1, hcomp2, hcomp3]

/-- C3 counterexample: a CaptureSet taken from two faces with disjoint
edges and seam bundles `[[true,true],[false,false]]`, pasted Strict onto
two destination faces with matching corner counts that share edge 1: the
second face's write clears edge 1's seam, so re-capturing yields seam
bundle `[true,false]` for the first face and the round trip fails. -/
theorem claim_C3_counterexample :
    MUV_CPUVCopyUV_execute
        (⟨[⟨true, [⟨true, false, 0, false⟩, ⟨true, false, 1, false⟩]⟩,
           ⟨true, [⟨true, false, 2, false⟩, ⟨true, false, 3, false⟩]⟩],
          fun e => e == 0 || e == 1⟩ : Mesh Bool) ⟨[], [], []⟩ =
      (none, ⟨[[true, true], [true, true]], [[false, false], [false, false]],
        [[true, true], [false, false]]⟩) ∧
    (⟨[[true, true], [true, true]], [[false, false], [false, false]],
        [[true, true], [false, false]]⟩ : Props Bool).src_uvs.map List.length =
      (selFaces (⟨[⟨true, [⟨true, false, 0, false⟩, ⟨true, false, 1, false⟩]⟩,
           ⟨true, [⟨true, false, 1, false⟩, ⟨true, false, 2, false⟩]⟩],
          fun _ => false⟩ : Mesh Bool)).map (fun f => f.loops.length) ∧
    captureTriple (MUV_CPUVPasteUV_execute
        (⟨[[true, true], [true, true]], [[false, false], [false, false]],
          [[true, true], [false, false]]⟩ : Props Bool)
        (⟨[⟨true, [⟨true, false, 0, false⟩, ⟨true, false, 1, false⟩]⟩,
           ⟨true, [⟨true, false, 1, false⟩, ⟨true, false, 2, false⟩]⟩],
          fun _ => false⟩ : Mesh Bool) Strategy.NN false 0 true).2 ≠
      ([[true, true], [true, true]], [[false, false], [false, false]],
        [[true, true], [false, false]]) := by
  refine ⟨by decide, by decide, by decide⟩

/-- Witness for C3 on a concrete one-face round trip with disjoint
destination edges. -/
theorem claim_C3_witness :
    MUV_CPUVCopyUV_execute
        (⟨[⟨true, [⟨true, false, 0, false⟩]⟩], fun _ => true⟩ : Mesh Bool) ⟨[], [], []⟩ =
      (none, ⟨[[true]], [[false]], [[true]]⟩) ∧
    ((MUV_CPUVPasteUV_execute (⟨[[true]], [[false]], [[true]]⟩ : Props Bool)
        (⟨[⟨true, [⟨false, true, 5, false⟩]⟩], fun _ => false⟩ : Mesh Bool)
        Strategy.NN false 0 true).1 = none ∧
      captureTriple (MUV_CPUVPasteUV_execute (⟨[[true]], [[false]], [[true]]⟩ : Props Bool)
        (⟨[⟨true, [⟨false, true, 5, false⟩]⟩], fun _ => false⟩ : Mesh Bool)
        Strategy.NN false 0 true).2 = ([[true]], [[false]], [[true]])) :=
  ⟨by decide,
   claim_C3_amended
     (⟨[⟨true, [⟨true, false, 0, false⟩]⟩], fun _ => true⟩ : Mesh Bool)
     (⟨[⟨true, [⟨false, true, 5, false⟩]⟩], fun _ => false⟩ : Mesh Bool)
     ⟨[], [], []⟩ ⟨[[true]], [[false]], [[true]]⟩ (by decide)
     (List.Forall₂.cons (by decide) List.Forall₂.nil) (by decide)⟩

/-! ### Similarity-transform lemmas -/

theorem Vec.sub_def (a b : Vec) : a - b = ⟨a.x - b.x, a.y - b.y⟩ := rfl

theorem vec_length_eq_abs (v : Vec) : v.length = Complex.abs ⟨v.x, v.y⟩ := by
  rw [Vec.length, Complex.abs_apply, Complex.normSq_apply]

theorem len_cos_arg (θ : ℝ) (b : Vec) :
    b.length * Real.cos (θ + atan2 b.y b.x) = Real.cos θ * b.x - Real.sin θ * b.y := by
  rw [atan2, Real.cos_add, vec_length_eq_abs]
  by_cases h0 : (⟨b.x, b.y⟩ : ℂ) = 0
  · have hx : b.x = 0 := by
      have := congrArg Complex.re h0
      simpa using this
    have hy : b.y = 0 := by
      have := congrArg Complex.im h0
      simpa using this
    rw [h0]
    simp [hx, hy]
  · rw [Complex.cos_arg h0, Complex.sin_arg]
    have habs : Complex.abs ⟨b.x, b.y⟩ ≠ 0 := by simpa using h0
    have hre : (⟨b.x, b.y⟩ : ℂ).re = b.x := rfl
    have him : (⟨b.x, b.y⟩ : ℂ).im = b.y := rfl
    rw [hre, him]
    field_simp

theorem len_sin_arg (θ : ℝ) (b : Vec) :
    b.length * Real.sin (θ + atan2 b.y b.x) = Real.sin θ * b.x + Real.cos θ * b.y := by
  rw [atan2, Real.sin_add, vec_length_eq_abs]
  by_cases h0 : (⟨b.x, b.y⟩ : ℂ) = 0
  · have hx : b.x = 0 := by
      have := congrArg Complex.re h0
      simpa using this
    have hy : b.y = 0 := by
      have := congrArg Complex.im h0
      simpa using this
    rw [h0]
    simp [hx, hy]
  · rw [Complex.cos_arg h0, Complex.sin_arg]
    have habs : Complex.abs ⟨b.x, b.y⟩ ≠ 0 := by simpa using h0
    have hre : (⟨b.x, b.y⟩ : ℂ).re = b.x := rfl
    have him : (⟨b.x, b.y⟩ : ℂ).im = b.y := rfl
    rw [hre, him]
    field_simp

theorem alignCorner_eq_spec (r s : ℝ) (S D c : Vec) :
    alignCorner r s S D c = alignCornerSpec r s S D c := by
  rw [alignCorner, alignCornerSpec]
  have hx := len_cos_arg r (c - S)
  have hy := len_sin_arg r (c - S)
  rw [Vec.sub_def] at hx hy
  simp only [Vec.sub_def]
  ext
  · simp only []
    rw [hx]
    ring
  · simp only []
    rw [hy]
    ring

/-! ### C1: the bases of the similarity paste -/

/-- C1 amended: the image-editor paste equals the spec-style rotate-scale
formula in which EVERY face is re-based on the FIRST captured face's
first corner and translated to the FIRST destination face's first corner
(`target = rotScale(c - src_0[0]) + dest_0[0]` for every pair). -/
theorem claim_C1_amended (p : Props Vec) (m : Mesh Vec) :
    MUV_CPUVIEPasteUV_execute p m = specAlignPasteGlobal p m := by
  rw [MUV_CPUVIEPasteUV_execute, specAlignPasteGlobal]
  have hc : alignCorner = alignCornerSpec := by
    funext r s S D c
    exact alignCorner_eq_spec r s S D c
  rw [hc]

/-! ### Concrete angle and length values -/

theorem atan2_zero_nonneg (x : ℝ) (hx : 0 ≤ x) : atan2 0 x = 0 := by
  rw [atan2]
  have hh : (⟨x, 0⟩ : ℂ) = (x : ℂ) := by
    apply Complex.ext
    · simp
    · simp
  rw [hh]
  exact Complex.arg_ofReal_of_nonneg hx

theorem atan2_pos_left (y : ℝ) (hy : 0 < y) : atan2 y 0 = Real.pi / 2 := by
  rw [atan2]
  exact Complex.arg_eq_pi_div_two_iff.mpr ⟨rfl, hy⟩

theorem vec_length_x0 (x : ℝ) (hx : 0 ≤ x) : (⟨x, 0⟩ : Vec).length = x := by
  show Real.sqrt (x * x + 0 * 0) = x
  rw [show x * x + 0 * 0 = x * x by ring]
  exact Real.sqrt_mul_self hx

theorem vec_length_0y (y : ℝ) (hy : 0 ≤ y) : (⟨0, y⟩ : Vec).length = y := by
  show Real.sqrt (0 * 0 + y * y) = y
  rw [show 0 * 0 + y * y = y * y by ring]
  exact Real.sqrt_mul_self hy

/-! ### C5: the derived rotation and scale -/

/-- C5: the transform derivation of the image-editor paste: the rotation
follows the three-way angle comparison, always lies in `[0, 2π)`, and the
scale is the ratio of the reference edge lengths; concretely, source
angle 0, destination angle `π/2` and length ratio 2 give `θ = π/2`,
`s = 2`, and a source corner at offset `(1,0)` from the source base is
written to `dest_base + (0,2)`. -/
theorem claim_C5 :
    (∀ sd dd : Vec,
      (atan2 sd.y sd.x < atan2 dd.y dd.x →
        deriveRadian sd dd = atan2 dd.y dd.x - atan2 sd.y sd.x) ∧
      (atan2 dd.y dd.x < atan2 sd.y sd.x →
        deriveRadian sd dd = Real.pi * 2 - (atan2 sd.y sd.x - atan2 dd.y dd.x)) ∧
      (atan2 sd.y sd.x = atan2 dd.y dd.x → deriveRadian sd dd = 0) ∧
      0 ≤ deriveRadian sd dd ∧ deriveRadian sd dd < 2 * Real.pi ∧
      deriveRatio sd dd = dd.length / sd.length) ∧
    deriveRadian ⟨1, 0⟩ ⟨0, 2⟩ = Real.pi / 2 ∧
    deriveRatio ⟨1, 0⟩ ⟨0, 2⟩ = 2 ∧
    ∀ db : Vec, alignCorner (deriveRadian ⟨1, 0⟩ ⟨0, 2⟩) (deriveRatio ⟨1, 0⟩ ⟨0, 2⟩)
      ⟨0, 0⟩ db ⟨1, 0⟩ = ⟨db.x, db.y + 2⟩ := by
  have hval : deriveRadian ⟨1, 0⟩ ⟨0, 2⟩ = Real.pi / 2 := by
    have h1 : atan2 (0 : ℝ) 1 = 0 := atan2_zero_nonneg 1 (by norm_num)
    have h2 : atan2 (2 : ℝ) 0 = Real.pi / 2 := atan2_pos_left 2 (by norm_num)
    have hunf : deriveRadian ⟨1, 0⟩ ⟨0, 2⟩ =
        if atan2 (0 : ℝ) 1 < atan2 (2 : ℝ) 0 then atan2 (2 : ℝ) 0 - atan2 (0 : ℝ) 1
        else if atan2 (2 : ℝ) 0 < atan2 (0 : ℝ) 1 then
          Real.pi * 2 - (atan2 (0 : ℝ) 1 - atan2 (2 : ℝ) 0)
        else 0 := rfl
    rw [hunf, h1, h2, if_pos (by have := Real.pi_pos; linarith)]
    rw [sub_zero]
  have hratio : deriveRatio ⟨1, 0⟩ ⟨0, 2⟩ = 2 := by
    rw [deriveRatio, vec_length_0y 2 (by norm_num), vec_length_x0 1 (by norm_num)]
    norm_num
  refine ⟨?_, hval, hratio, ?_⟩
  · intro sd dd
    have hsrb1 : -Real.pi < atan2 sd.y sd.x := by
      rw [atan2]
      exact Complex.neg_pi_lt_arg _
    have hsrb2 : atan2 sd.y sd.x ≤ Real.pi := by
      rw [atan2]
      exact Complex.arg_le_pi _
    have hdrb1 : -Real.pi < atan2 dd.y dd.x := by
      rw [atan2]
      exact Complex.neg_pi_lt_arg _
    have hdrb2 : atan2 dd.y dd.x ≤ Real.pi := by
      rw [atan2]
      exact Complex.arg_le_pi _
    have hunf : deriveRadian sd dd =
        if atan2 sd.y sd.x < atan2 dd.y dd.x then atan2 dd.y dd.x - atan2 sd.y sd.x
        else if atan2 dd.y dd.x < atan2 sd.y sd.x then
          Real.pi * 2 - (atan2 sd.y sd.x - atan2 dd.y dd.x)
        else 0 := rfl
    have hpi := Real.pi_pos
    refine ⟨?_, ?_, ?_, ?_, ?_, rfl⟩
    · intro h
      rw [hunf, if_pos h]
    · intro h
      rw [hunf, if_neg (lt_asymm h), if_pos h]
    · intro h
      rw [hunf, if_neg (by rw [h]; exact lt_irrefl _), if_neg (by rw [h]; exact lt_irrefl _)]
    · rcases lt_trichotomy (atan2 sd.y sd.x) (atan2 dd.y dd.x) with h | h | h
      · rw [hunf, if_pos h]
        linarith
      · rw [hunf, if_neg (by rw [h]; exact lt_irrefl _), if_neg (by rw [h]; exact lt_irrefl _)]
      · rw [hunf, if_neg (lt_asymm h), if_pos h]
        linarith
    · rcases lt_trichotomy (atan2 sd.y sd.x) (atan2 dd.y dd.x) with h | h | h
      · rw [hunf, if_pos h]
        linarith
      · rw [hunf, if_neg (by rw [h]; exact lt_irrefl _), if_neg (by rw [h]; exact lt_irrefl _)]
        linarith
      · rw [hunf, if_neg (lt_asymm h), if_pos h]
        linarith
  · intro db
    rw [hval, hratio, alignCorner_eq_spec, alignCornerSpec]
    have hc : Real.cos (Real.pi / 2) = 0 := Real.cos_pi_div_two
    have hs : Real.sin (Real.pi / 2) = 1 := Real.sin_pi_div_two
    ext
    · show 2 * (Real.cos (Real.pi / 2) * ((1 : ℝ) - 0) -
          Real.sin (Real.pi / 2) * ((0 : ℝ) - 0)) + db.x = db.x
      rw [hc, hs]
      ring
    · show 2 * (Real.sin (Real.pi / 2) * ((1 : ℝ) - 0) +
          Real.cos (Real.pi / 2) * ((0 : ℝ) - 0)) + db.y = db.y + 2
      rw [hc, hs]
      ring

/-- Witness for C5: the positive-rotation case of the angle formula at
the concrete reference pair, and the concrete corner mapping. -/
theorem claim_C5_witness :
    deriveRadian ⟨1, 0⟩ ⟨0, 2⟩ = atan2 ((⟨0, 2⟩ : Vec)).y ((⟨0, 2⟩ : Vec)).x -
        atan2 ((⟨1, 0⟩ : Vec)).y ((⟨1, 0⟩ : Vec)).x ∧
      alignCorner (deriveRadian ⟨1, 0⟩ ⟨0, 2⟩) (deriveRatio ⟨1, 0⟩ ⟨0, 2⟩) ⟨0, 0⟩ ⟨3, 4⟩
        ⟨1, 0⟩ = ⟨(⟨3, 4⟩ : Vec).x, (⟨3, 4⟩ : Vec).y + 2⟩ := by
  constructor
  · apply (claim_C5.1 ⟨1, 0⟩ ⟨0, 2⟩).1
    show atan2 (0 : ℝ) 1 < atan2 (2 : ℝ) 0
    rw [atan2_zero_nonneg 1 (by norm_num), atan2_pos_left 2 (by norm_num)]
    have := Real.pi_pos
    linarith
  · exact claim_C5.2.2.2 ⟨3, 4⟩

/-! ### C1 counterexample: first-pair bases versus per-face bases -/

theorem cex_dest : ieDestData cexMesh = [(0, cexFace0), (1, cexFace1)] := rfl

theorem cex_sub1 : (⟨1, 0⟩ - ⟨0, 0⟩ : Vec) = ⟨1, 0⟩ := by
  rw [Vec.sub_def]
  norm_num

theorem cex_sub2 : (⟨6, 5⟩ - ⟨5, 5⟩ : Vec) = ⟨1, 0⟩ := by
  rw [Vec.sub_def]
  norm_num

theorem cex_len_ne : ¬((⟨1, 0⟩ : Vec).length = 0) := by
  rw [vec_length_x0 1 (by norm_num)]
  exact one_ne_zero

theorem cex_radian : deriveRadian ⟨1, 0⟩ ⟨1, 0⟩ = 0 := by
  have hunf : deriveRadian ⟨1, 0⟩ ⟨1, 0⟩ =
      if atan2 (0 : ℝ) 1 < atan2 (0 : ℝ) 1 then atan2 (0 : ℝ) 1 - atan2 (0 : ℝ) 1
      else if atan2 (0 : ℝ) 1 < atan2 (0 : ℝ) 1 then
        Real.pi * 2 - (atan2 (0 : ℝ) 1 - atan2 (0 : ℝ) 1)
      else 0 := rfl
  rw [hunf, if_neg (lt_irrefl _), if_neg (lt_irrefl _)]

theorem cex_ratio : deriveRatio ⟨1, 0⟩ ⟨1, 0⟩ = 1 := by
  rw [deriveRatio, vec_length_x0 1 (by norm_num)]
  norm_num

theorem cex_lhs : MUV_CPUVIEPasteUV_execute cexProps cexMesh =
    some (ieWriteLoop (alignCorner 0 1 ⟨0, 0⟩ ⟨5, 5⟩)
      [[⟨0, 0⟩, ⟨1, 0⟩], [⟨10, 0⟩]] [0, 1] cexMesh) := by
  rw [MUV_CPUVIEPasteUV_execute]
  simp only [iePasteWith, cex_dest, cexProps, cexFace0, cexFace1, faceUVs,
    List.map_cons, List.map_nil, List.getElem?_cons_zero, List.getElem?_cons_succ]
  rw [cex_sub1, cex_sub2, if_neg cex_len_ne, cex_radian, cex_ratio]

theorem cex_rhs : specAlignPastePerFace cexProps cexMesh =
    some (perFaceWrite 0 1 [[⟨0, 0⟩, ⟨1, 0⟩], [⟨10, 0⟩]]
      [(0, cexFace0), (1, cexFace1)] cexMesh) := by
  rw [specAlignPastePerFace]
  simp only [cex_dest, cexProps, cexFace0, cexFace1, faceUVs,
    List.map_cons, List.map_nil, List.getElem?_cons_zero, List.getElem?_cons_succ]
  rw [cex_sub1, cex_sub2, if_neg cex_len_ne, cex_radian, cex_ratio]

theorem cex_lhs_uv : uvAt (ieWriteLoop (alignCorner 0 1 ⟨0, 0⟩ ⟨5, 5⟩)
    [[⟨0, 0⟩, ⟨1, 0⟩], [⟨10, 0⟩]] [0, 1] cexMesh) 1 0 ⟨0, 0⟩ =
    alignCorner 0 1 ⟨0, 0⟩ ⟨5, 5⟩ ⟨10, 0⟩ := rfl

theorem cex_rhs_uv : uvAt (perFaceWrite 0 1 [[⟨0, 0⟩, ⟨1, 0⟩], [⟨10, 0⟩]]
    [(0, cexFace0), (1, cexFace1)] cexMesh) 1 0 ⟨0, 0⟩ =
    alignCornerSpec 0 1 ⟨10, 0⟩ ⟨7, 7⟩ ⟨10, 0⟩ := rfl

theorem cex_lhs_val : alignCorner 0 1 ⟨0, 0⟩ ⟨5, 5⟩ ⟨10, 0⟩ = (⟨15, 5⟩ : Vec) := by
  rw [alignCorner_eq_spec, alignCornerSpec]
  ext
  · show 1 * (Real.cos 0 * ((10 : ℝ) - 0) - Real.sin 0 * ((0 : ℝ) - 0)) + 5 = 15
    rw [Real.cos_zero, Real.sin_zero]
    norm_num
  · show 1 * (Real.sin 0 * ((10 : ℝ) - 0) + Real.cos 0 * ((0 : ℝ) - 0)) + 5 = 5
    rw [Real.cos_zero, Real.sin_zero]
    norm_num

theorem cex_rhs_val : alignCornerSpec 0 1 ⟨10, 0⟩ ⟨7, 7⟩ ⟨10, 0⟩ = (⟨7, 7⟩ : Vec) := by
  rw [alignCornerSpec]
  ext
  · show 1 * (Real.cos 0 * ((10 : ℝ) - 10) - Real.sin 0 * ((0 : ℝ) - 0)) + 7 = 7
    rw [Real.cos_zero, Real.sin_zero]
    norm_num
  · show 1 * (Real.sin 0 * ((10 : ℝ) - 10) + Real.cos 0 * ((0 : ℝ) - 0)) + 7 = 7
    rw [Real.cos_zero, Real.sin_zero]
    norm_num

/-- C1 counterexample: on a concrete two-bundle capture, the image-editor
paste writes the second bundle's corner `(10,0)` to
`rotScale((10,0) - src_0[0]) + dest_0[0] = (15,5)`, whereas the claim's
per-face formula `rotScale(c - src_k[0]) + dest_k[0]` would give `(7,7)`;
the code re-bases every face on the FIRST pair's corners. -/
theorem claim_C1_counterexample :
    MUV_CPUVIEPasteUV_execute cexProps cexMesh ≠ specAlignPastePerFace cexProps cexMesh := by
  intro h
  rw [cex_lhs, cex_rhs] at h
  have h5 : ieWriteLoop (alignCorner 0 1 ⟨0, 0⟩ ⟨5, 5⟩)
      [[⟨0, 0⟩, ⟨1, 0⟩], [⟨10, 0⟩]] [0, 1] cexMesh =
      perFaceWrite 0 1 [[⟨0, 0⟩, ⟨1, 0⟩], [⟨10, 0⟩]]
      [(0, cexFace0), (1, cexFace1)] cexMesh := by
    injection h
  have h6 := congrArg (fun mm => uvAt mm 1 0 ⟨0, 0⟩) h5
  simp only [cex_lhs_uv, cex_rhs_uv] at h6
  rw [cex_lhs_val, cex_rhs_val] at h6
  have h7 := congrArg Vec.x h6
  norm_num at h7
